import Mathlib

/-!
# Verification of the deno-eth-wallet transaction encoding and signing core

This file embeds the byte codec, RLP encoder, EIP-155 transaction signer and
EIP-191 message signer of the `deno-eth-wallet` repository as executable Lean
definitions and proves the specified properties about them.

Sources embedded:
* `src/utils.ts` / `src/tx.ts` — `intToBuffer`, `toBuffer`, `encodeLength`,
  `rlpEncode`, `hexToBuffer`;
* `src/signature.ts` (the elliptic-based `sign`, the noble-based
  `signTransaction` and `signMessage`);
* the external collaborators (Node `Buffer.from(_, 'hex')`, `keccak256`,
  secp256k1 ECDSA) are modelled concretely, as documented on each definition.

Machine numbers are modelled by `Nat` (the TypeScript sources use `bigint`
and non-negative `number` values throughout the signing paths), byte buffers
by `List Nat` whose elements are below 256, and JavaScript strings by Lean
`String`.
-/

set_option maxRecDepth 100000

/-! ## Byte codec -/

/-- Hex digit value of a character, `none` for a non-hex character
(the digit test performed by Node's `Buffer.from(s, 'hex')`). -/
def hexVal (c : Char) : Option Nat :=
  if '0' ≤ c ∧ c ≤ '9' then some (c.toNat - '0'.toNat)
  else if 'a' ≤ c ∧ c ≤ 'f' then some (c.toNat - 'a'.toNat + 10)
  else if 'A' ≤ c ∧ c ≤ 'F' then some (c.toNat - 'A'.toNat + 10)
  else none

/-- Modelled from the spec: Node's `Buffer.from(s, 'hex')`, the hex decoder
used by `hexToBuffer` and `intToBuffer` in `src/utils.ts`/`src/tx.ts`
(the implementation lives in the Node/Deno runtime, not under `src/`).
It decodes two hex digits at a time and stops silently at the first
incomplete or invalid digit pair, truncating the result. -/
def nodeHexDecode : List Char → List Nat
  | c₁ :: c₂ :: rest =>
    match hexVal c₁, hexVal c₂ with
    | some h, some l => (h * 16 + l) :: nodeHexDecode rest
    | _, _ => []
  | _ => []

/-- JavaScript's `s.startsWith('0x')`. -/
def startsWith0x : List Char → Bool
  | c₁ :: c₂ :: _ => c₁ == '0' && c₂ == 'x'
  | _ => false

/-- `hexToBuffer` from `src/utils.ts`: strips an optional `"0x"` prefix and
decodes the remainder with Node `Buffer.from(_, 'hex')` semantics. -/
def hexToBuffer (s : String) : List Nat :=
  nodeHexDecode (if startsWith0x s.data then s.data.drop 2 else s.data)

/-- Big-endian base-16 digits of `n` (most significant first); the fuel
argument is instantiated with `n + 1`, which always suffices, so the
function is total and agrees with JavaScript's `n.toString(16)`. -/
def hexDigitsAux : Nat → Nat → List Nat
  | 0, _ => []
  | fuel + 1, n => if n < 16 then [n] else hexDigitsAux fuel (n / 16) ++ [n % 16]

/-- The base-16 digit values of JavaScript's `n.toString(16)`. -/
def hexDigits (n : Nat) : List Nat :=
  hexDigitsAux (n + 1) n

/-- Combine a hex-digit list pairwise into bytes, as Node
`Buffer.from(hexString, 'hex')` does on an even-length digit string. -/
def pairsToBytes : List Nat → List Nat
  | h :: l :: rest => (h * 16 + l) :: pairsToBytes rest
  | _ => []

/-- `intToBuffer` from `src/utils.ts`/`src/tx.ts`: `0` becomes the empty
buffer; otherwise the hex string of `n` is left-padded with one `'0'` to an
even number of digits and decoded pairwise into bytes.  The `number` and
`bigint` branches of the source are identical, so a single `Nat` function
models both. -/
def intToBuffer (n : Nat) : List Nat :=
  if n = 0 then []
  else
    let ds := hexDigits n
    pairsToBytes (if ds.length % 2 = 1 then 0 :: ds else ds)

/-- `encodeLength` from `src/tx.ts`: same hex dance as `intToBuffer` but
without the zero special case (`0` encodes as the byte `0x00`). -/
def encodeLength (n : Nat) : List Nat :=
  let ds := hexDigits n
  pairsToBytes (if ds.length % 2 = 1 then 0 :: ds else ds)

/-- Big-endian interpretation of a byte string as a natural number
(the spec's `bytesToInt`). -/
def bytesToNat (bs : List Nat) : Nat :=
  bs.foldl (fun a b => a * 256 + b) 0

/-! ### Basic lemmas about the byte codec -/

theorem hexDigitsAux_eq (fuel n : Nat) (h : n < fuel) :
    hexDigitsAux fuel n = if n < 16 then [n] else hexDigitsAux n (n / 16) ++ [n % 16] := by
  induction fuel using Nat.strong_induction_on generalizing n with
  | _ fuel ih =>
    match fuel with
    | 0 => omega
    | fuel + 1 =>
      rw [hexDigitsAux]
      by_cases h16 : n < 16
      · simp [h16]
      · simp only [if_neg h16]
        have hdiv : n / 16 < fuel := by
          have := Nat.div_lt_self (by omega : 0 < n) (by omega : 1 < 16)
          omega
        have hdiv' : n / 16 < n := Nat.div_lt_self (by omega) (by omega)
        rw [ih fuel (Nat.lt_succ_self fuel) _ hdiv, ih n h _ hdiv']

theorem hexDigitsAux_congr (f₁ f₂ n : Nat) (h₁ : n < f₁) (h₂ : n < f₂) :
    hexDigitsAux f₁ n = hexDigitsAux f₂ n := by
  induction n using Nat.strong_induction_on generalizing f₁ f₂ with
  | _ n ih =>
    rw [hexDigitsAux_eq f₁ n h₁, hexDigitsAux_eq f₂ n h₂]

theorem hexDigits_eq (n : Nat) :
    hexDigits n = if n < 16 then [n] else hexDigits (n / 16) ++ [n % 16] := by
  unfold hexDigits
  rw [hexDigitsAux_eq (n + 1) n (Nat.lt_succ_self n)]
  by_cases h : n < 16
  · simp [h]
  · simp only [if_neg h]
    rw [hexDigitsAux_congr n (n / 16 + 1) (n / 16)
      (Nat.div_lt_self (by omega) (by omega)) (Nat.lt_succ_self _)]

/-- Value of a big-endian digit list in base 16. -/
def hexDigitsVal (ds : List Nat) : Nat :=
  ds.foldl (fun a d => a * 16 + d) 0

theorem hexDigitsVal_append_singleton (ds : List Nat) (d : Nat) :
    hexDigitsVal (ds ++ [d]) = hexDigitsVal ds * 16 + d := by
  simp [hexDigitsVal, List.foldl_append]

theorem hexDigits_val (n : Nat) : hexDigitsVal (hexDigits n) = n := by
  induction n using Nat.strong_induction_on with
  | _ n ih =>
    rw [hexDigits_eq]
    by_cases h : n < 16
    · simp [h, hexDigitsVal]
    · simp only [if_neg h]
      rw [hexDigitsVal_append_singleton, ih (n / 16) (Nat.div_lt_self (by omega) (by omega))]
      omega

theorem hexDigits_ne_nil (n : Nat) : hexDigits n ≠ [] := by
  rw [hexDigits_eq]
  by_cases h : n < 16 <;> simp [h]

theorem hexDigits_head_pos (n : Nat) (hn : 0 < n) :
    ∀ d ds, hexDigits n = d :: ds → 0 < d := by
  induction n using Nat.strong_induction_on with
  | _ n ih =>
    intro d ds h
    rw [hexDigits_eq] at h
    by_cases h16 : n < 16
    · simp [h16] at h
      omega
    · simp only [if_neg h16] at h
      have hne := hexDigits_ne_nil (n / 16)
      match hh : hexDigits (n / 16) with
      | [] => exact absurd hh hne
      | d' :: ds' =>
        rw [hh] at h
        simp at h
        have : 0 < n / 16 := by
          have := Nat.div_lt_self (by omega : 0 < n) (by omega : 1 < 16)
          rcases Nat.eq_zero_or_pos (n / 16) with h0 | hp
          · exfalso
            have := Nat.div_eq_zero_iff (by omega : 0 < 16) |>.mp h0
            omega
          · exact hp
        have := ih (n / 16) (Nat.div_lt_self (by omega) (by omega)) this d' ds' hh
        omega

theorem hexDigits_lt_16 (n : Nat) : ∀ d ∈ hexDigits n, d < 16 := by
  induction n using Nat.strong_induction_on with
  | _ n ih =>
    intro d hd
    rw [hexDigits_eq] at hd
    by_cases h16 : n < 16
    · simp [h16] at hd
      omega
    · simp only [if_neg h16, List.mem_append, List.mem_singleton] at hd
      rcases hd with hd | hd
      · exact ih (n / 16) (Nat.div_lt_self (by omega) (by omega)) d hd
      · subst hd
        exact Nat.mod_lt _ (by omega)

/-- Generic base-`b` fold: the accumulator contributes `a * b ^ length`. -/
theorem foldl_base (b a : Nat) (tl : List Nat) :
    tl.foldl (fun x d => x * b + d) a
      = a * b ^ tl.length + tl.foldl (fun x d => x * b + d) 0 := by
  induction tl generalizing a with
  | nil => simp
  | cons c tl ih =>
    simp only [List.foldl_cons, List.length_cons]
    rw [ih (a * b + c), ih (0 * b + c)]
    ring

theorem bytesToNat_cons (x : Nat) (rest : List Nat) :
    bytesToNat (x :: rest) = x * 256 ^ rest.length + bytesToNat rest := by
  unfold bytesToNat
  simp only [List.foldl_cons]
  rw [foldl_base 256 (0 * 256 + x) rest]
  ring_nf

theorem hexDigitsVal_cons (d : Nat) (rest : List Nat) :
    hexDigitsVal (d :: rest) = d * 16 ^ rest.length + hexDigitsVal rest := by
  unfold hexDigitsVal
  simp only [List.foldl_cons]
  rw [foldl_base 16 (0 * 16 + d) rest]
  ring_nf

theorem pairsToBytes_length : ∀ l (ds : List Nat), ds.length = l →
    (pairsToBytes ds).length = l / 2 := by
  intro l
  induction l using Nat.strong_induction_on with
  | _ l ih =>
    intro ds hl
    match ds with
    | [] => simp [pairsToBytes] at hl ⊢; omega
    | [d] => simp [pairsToBytes] at hl ⊢; omega
    | d₁ :: d₂ :: rest =>
      rw [pairsToBytes]
      simp only [List.length_cons] at hl ⊢
      rw [ih rest.length (by omega) rest rfl]
      omega

/-- On an even-length digit list, combining hex digits pairwise into bytes
preserves the big-endian value. -/
theorem bytesToNat_pairsToBytes : ∀ l (ds : List Nat), ds.length = l →
    l % 2 = 0 → bytesToNat (pairsToBytes ds) = hexDigitsVal ds := by
  intro l
  induction l using Nat.strong_induction_on with
  | _ l ih =>
    intro ds hl h
    match ds with
    | [] => simp [pairsToBytes, bytesToNat, hexDigitsVal]
    | [d] => simp at hl; omega
    | d₁ :: d₂ :: rest =>
      simp only [List.length_cons] at hl
      rw [pairsToBytes, bytesToNat_cons, hexDigitsVal_cons, hexDigitsVal_cons,
        ih rest.length (by omega) rest rfl (by omega),
        pairsToBytes_length rest.length rest rfl]
      have h2 : 2 ∣ rest.length := by omega
      obtain ⟨m, hm⟩ := h2
      rw [hm]
      have hdiv : 2 * m / 2 = m := by omega
      rw [hdiv]
      have hpow : (256 : Nat) ^ m = 16 ^ (2 * m) := by
        rw [show (256 : Nat) = 16 ^ 2 by norm_num, ← pow_mul]
      rw [hpow]
      simp only [List.length_cons, hm]
      ring

/-- `intToBuffer` round-trips through big-endian decoding. -/
theorem bytesToNat_intToBuffer (n : Nat) : bytesToNat (intToBuffer n) = n := by
  unfold intToBuffer
  by_cases h : n = 0
  · simp [h, bytesToNat]
  · simp only [if_neg h]
    by_cases hodd : (hexDigits n).length % 2 = 1
    · rw [if_pos hodd,
        bytesToNat_pairsToBytes (0 :: hexDigits n).length _ rfl
          (by simp only [List.length_cons]; omega),
        hexDigitsVal_cons]
      rw [hexDigits_val]
      ring_nf
    · rw [if_neg hodd,
        bytesToNat_pairsToBytes (hexDigits n).length _ rfl (by omega),
        hexDigits_val]

/-- For positive `n`, `intToBuffer n` is nonempty and its first byte is
nonzero (minimality of the big-endian encoding). -/
theorem intToBuffer_head_pos (n : Nat) (hn : 0 < n) :
    intToBuffer n ≠ [] ∧ 0 < (intToBuffer n).head! := by
  unfold intToBuffer
  simp only [if_neg (by omega : ¬ n = 0)]
  obtain ⟨d, ds, hds⟩ : ∃ d ds, hexDigits n = d :: ds := by
    match h : hexDigits n with
    | [] => exact absurd h (hexDigits_ne_nil n)
    | d :: ds => exact ⟨d, ds, rfl⟩
  have hdpos : 0 < d := hexDigits_head_pos n hn d ds hds
  rw [hds]
  by_cases hodd : (d :: ds).length % 2 = 1
  · simp only [hodd, if_pos rfl, pairsToBytes]
    constructor
    · simp
    · simp [List.head!]
      omega
  · simp only [if_neg hodd]
    match ds with
    | [] => simp [List.length_cons] at hodd
    | e :: ds' =>
      rw [pairsToBytes]
      constructor
      · simp
      · simp [List.head!]
        omega

theorem pairsToBytes_lt_256 (ds : List Nat) (hds : ∀ d ∈ ds, d < 16) :
    ∀ b ∈ pairsToBytes ds, b < 256 := by
  generalize hl : ds.length = l
  induction l using Nat.strong_induction_on generalizing ds with
  | _ l ih =>
    match ds with
    | [] => simp [pairsToBytes]
    | [d] => simp [pairsToBytes]
    | d₁ :: d₂ :: rest =>
      intro b hb
      rw [pairsToBytes] at hb
      rcases List.mem_cons.mp hb with h0 | h0
      · have h₁ := hds d₁ (by simp)
        have h₂ := hds d₂ (by simp)
        omega
      · simp only [List.length_cons] at hl
        exact ih rest.length (by omega) rest
          (fun d hd => hds d (by simp [hd])) rfl b h0

/-- Bytes produced by `intToBuffer` are genuine bytes. -/
theorem intToBuffer_lt_256 (n : Nat) : ∀ b ∈ intToBuffer n, b < 256 := by
  intro b hb
  unfold intToBuffer at hb
  by_cases h : n = 0
  · simp [h] at hb
  · simp only [if_neg h] at hb
    by_cases hodd : (hexDigits n).length % 2 = 1
    · simp only [hodd, if_pos rfl] at hb
      refine pairsToBytes_lt_256 (0 :: hexDigits n) ?_ b hb
      intro d hd
      rcases List.mem_cons.mp hd with h0 | h0
      · omega
      · exact hexDigits_lt_16 n d h0
    · simp only [if_neg hodd] at hb
      exact pairsToBytes_lt_256 (hexDigits n) (hexDigits_lt_16 n) b hb

/-! ## RLP encoder (`src/tx.ts`) -/

/-- UTF-8 encoding of a single Unicode scalar value, as produced by
JavaScript's `TextEncoder` / `Buffer.from(s, 'utf8')`. -/
def utf8Bytes (c : Char) : List Nat :=
  let v := c.toNat
  if v < 0x80 then [v]
  else if v < 0x800 then [0xC0 + v / 64, 0x80 + v % 64]
  else if v < 0x10000 then [0xE0 + v / 4096, 0x80 + v / 64 % 64, 0x80 + v % 64]
  else [0xF0 + v / 262144, 0x80 + v / 4096 % 64, 0x80 + v / 64 % 64, 0x80 + v % 64]

/-- UTF-8 bytes of a string (JavaScript `Buffer.from(s, 'utf8')`). -/
def strUtf8 (s : String) : List Nat :=
  s.data.foldr (fun c acc => utf8Bytes c ++ acc) []

/-- The value space of the repository's `rlpEncode`: JavaScript lets it
receive byte buffers, strings, numbers/bigints, and arrays of the same. -/
inductive RlpInput where
  | bytes : List Nat → RlpInput
  | str : String → RlpInput
  | int : Nat → RlpInput
  | list : List RlpInput → RlpInput

/-- `toBuffer` from `src/tx.ts` (the non-array cases): byte buffers pass
through, a `"0x"`-prefixed string is hex-decoded, any other string is UTF-8
encoded, and numbers/bigints go through `intToBuffer`.  The source throws on
other input types; arrays never reach `toBuffer` because `rlpEncode` handles
them first, so the `.list` case below is dead code kept only for totality. -/
def toBuffer : RlpInput → List Nat
  | .bytes bs => bs
  | .str s => if startsWith0x s.data then nodeHexDecode (s.data.drop 2) else strUtf8 s
  | .int n => intToBuffer n
  | .list _ => []

mutual
/-- `rlpEncode` from `src/tx.ts`: arrays are encoded recursively and the
concatenated payload gets a `0xc0`/`0xf7` header; anything else is converted
with `toBuffer` and gets the single-byte fast path or a `0x80`/`0xb7`
header. -/
def rlpEncode : RlpInput → List Nat
  | .list xs =>
    let payload := rlpEncodeList xs
    if payload.length < 56 then (0xc0 + payload.length) :: payload
    else
      let lenBuf := encodeLength payload.length
      (0xf7 + lenBuf.length) :: (lenBuf ++ payload)
  | x =>
    let buf := toBuffer x
    if buf.length = 1 ∧ buf.head! < 0x80 then buf
    else if buf.length < 56 then (0x80 + buf.length) :: buf
    else
      let lenBuf := encodeLength buf.length
      (0xb7 + lenBuf.length) :: (lenBuf ++ buf)
  termination_by structural x => x

/-- The concatenation of the encodings of the elements of an array, the
`input.map(rlpEncode)` / `Buffer.concat` part of the source. -/
def rlpEncodeList : List RlpInput → List Nat
  | [] => []
  | x :: xs => rlpEncode x ++ rlpEncodeList xs
  termination_by structural xs => xs
end

/-- For positive lengths, `encodeLength` agrees with the minimal big-endian
encoding `intToBuffer`. -/
theorem encodeLength_eq_intToBuffer (n : Nat) (hn : 0 < n) :
    encodeLength n = intToBuffer n := by
  unfold encodeLength intToBuffer
  rw [if_neg (by omega : ¬ n = 0)]

/-- `rlpEncode` on a non-list input, written as the three cases of the RLP
specification. -/
theorem rlpEncode_bytes_cases (bs : List Nat) :
    rlpEncode (.bytes bs)
      = if bs.length = 1 ∧ bs.head! < 0x80 then bs
        else if bs.length < 56 then (0x80 + bs.length) :: bs
        else (0xb7 + (encodeLength bs.length).length) :: (encodeLength bs.length ++ bs) := rfl

/-- `rlpEncode` on a list input, written as the two cases of the RLP
specification. -/
theorem rlpEncode_list_cases (xs : List RlpInput) :
    rlpEncode (.list xs)
      = if (rlpEncodeList xs).length < 56
        then (0xc0 + (rlpEncodeList xs).length) :: rlpEncodeList xs
        else (0xf7 + (encodeLength (rlpEncodeList xs).length).length)
          :: (encodeLength (rlpEncodeList xs).length ++ rlpEncodeList xs) := rfl

theorem rlpEncodeList_eq_flatten (xs : List RlpInput) :
    rlpEncodeList xs = (xs.map rlpEncode).flatten := by
  induction xs with
  | nil => rfl
  | cons x xs ih => simp [rlpEncodeList, ih]

/-- C5: RLP encoding rules, byte-exact: the byte-string cases (verbatim
single byte below `0x80`, `0x80 + len` header below 56 bytes, `0xb7`-style
header with a minimal big-endian length otherwise), the list cases
(`0xc0 + len` / `0xf7`-style header over the concatenated child encodings),
and the canonical fixed vectors for `"dog"`, the empty list and the empty
string. -/
theorem rlp_encoding_rules_byte_exact :
    (∀ bs : List Nat,
      rlpEncode (.bytes bs)
        = if bs.length = 1 ∧ bs.head! < 0x80 then bs
          else if bs.length < 56 then (0x80 + bs.length) :: bs
          else (0xb7 + (intToBuffer bs.length).length)
            :: (intToBuffer bs.length ++ bs))
    ∧ (∀ xs : List RlpInput,
      rlpEncode (.list xs)
        = if ((xs.map rlpEncode).flatten).length < 56
          then (0xc0 + ((xs.map rlpEncode).flatten).length) :: (xs.map rlpEncode).flatten
          else (0xf7 + (intToBuffer ((xs.map rlpEncode).flatten).length).length)
            :: (intToBuffer ((xs.map rlpEncode).flatten).length ++ (xs.map rlpEncode).flatten))
    ∧ rlpEncode (.str "dog") = [0x83, 0x64, 0x6F, 0x67]
    ∧ rlpEncode (.list []) = [0xc0]
    ∧ rlpEncode (.str "") = [0x80] := by
  refine ⟨?_, ?_, by decide, by decide, by decide⟩
  · intro bs
    rw [rlpEncode_bytes_cases]
    by_cases h1 : bs.length = 1 ∧ bs.head! < 0x80
    · rw [if_pos h1, if_pos h1]
    · rw [if_neg h1, if_neg h1]
      by_cases h2 : bs.length < 56
      · rw [if_pos h2, if_pos h2]
      · rw [if_neg h2, if_neg h2, encodeLength_eq_intToBuffer _ (by omega)]
  · intro xs
    rw [rlpEncode_list_cases, rlpEncodeList_eq_flatten]
    by_cases h2 : ((xs.map rlpEncode).flatten).length < 56
    · rw [if_pos h2, if_pos h2]
    · rw [if_neg h2, if_neg h2, encodeLength_eq_intToBuffer _ (by omega)]

/-- C6: `intToBuffer` is the minimal big-endian encoding: zero becomes the
empty buffer, positive values never have a leading zero byte, and decoding
back as a big-endian integer restores the value. -/
theorem intToBuffer_minimal_roundtrip :
    intToBuffer 0 = []
    ∧ (∀ n : Nat, 0 < n → intToBuffer n ≠ [] ∧ 0 < (intToBuffer n).head!)
    ∧ (∀ n : Nat, bytesToNat (intToBuffer n) = n) :=
  ⟨rfl, intToBuffer_head_pos, bytesToNat_intToBuffer⟩

theorem intToBuffer_minimal_roundtrip_witness :
    (0 : Nat) < 2 ^ 70 + 5
    ∧ (intToBuffer (2 ^ 70 + 5) ≠ [] ∧ 0 < (intToBuffer (2 ^ 70 + 5)).head!)
    ∧ bytesToNat (intToBuffer (2 ^ 70 + 5)) = 2 ^ 70 + 5 :=
  ⟨by decide, intToBuffer_minimal_roundtrip.2.1 _ (by decide),
    intToBuffer_minimal_roundtrip.2.2 _⟩

/-- C10: an integer leaf is first converted with `intToBuffer`, so
`rlpEncode` of the integer `0` is the encoding of the empty string
(`0x80`), while the explicit one-byte string `0x00` encodes verbatim as
`0x00`. -/
theorem rlp_int_leaf_coercion :
    (∀ n : Nat, rlpEncode (.int n) = rlpEncode (.bytes (intToBuffer n)))
    ∧ rlpEncode (.int 0) = [0x80]
    ∧ rlpEncode (.bytes [0x00]) = [0x00] :=
  ⟨fun _ => rfl, by decide, by decide⟩

/-! ## Hex decoding (C8) -/

/-- On an even-length string of valid hex digits, Node's decoder returns
exactly the pairwise-decoded bytes. -/
theorem nodeHexDecode_valid : ∀ l (cs : List Char), cs.length = l →
    l % 2 = 0 → (∀ c ∈ cs, (hexVal c).isSome) →
    nodeHexDecode cs = pairsToBytes (cs.map (fun c => (hexVal c).getD 0)) := by
  intro l
  induction l using Nat.strong_induction_on with
  | _ l ih =>
    intro cs hl hpar hval
    match cs with
    | [] => rfl
    | [c] => simp at hl; omega
    | c₁ :: c₂ :: rest =>
      simp only [List.length_cons] at hl
      have h₁ := hval c₁ (by simp)
      have h₂ := hval c₂ (by simp)
      obtain ⟨v₁, hv₁⟩ := Option.isSome_iff_exists.mp h₁
      obtain ⟨v₂, hv₂⟩ := Option.isSome_iff_exists.mp h₂
      rw [nodeHexDecode]
      rw [hv₁, hv₂]
      simp only [List.map_cons, pairsToBytes, hv₁, hv₂, Option.getD_some]
      rw [ih rest.length (by omega) rest rfl (by omega)
        (fun c hc => hval c (by simp [hc]))]

/-- C8 (amended): `hexToBuffer` never raises an error.  On an even-length
all-hex-digit payload it returns the pairwise-decoded bytes; otherwise it
silently truncates at the first incomplete or invalid digit pair, per Node
`Buffer.from(_, 'hex')` semantics — an odd trailing digit is dropped and a
non-hex character stops decoding with no failure. -/
theorem hexToBuffer_node_semantics :
    (∀ s : String,
      (if startsWith0x s.data then s.data.drop 2 else s.data).length % 2 = 0 →
      (∀ c ∈ (if startsWith0x s.data then s.data.drop 2 else s.data),
        (hexVal c).isSome) →
      hexToBuffer s
        = pairsToBytes ((if startsWith0x s.data then s.data.drop 2 else s.data).map
            (fun c => (hexVal c).getD 0)))
    ∧ hexToBuffer "0xabc" = [0xab]
    ∧ hexToBuffer "0xZZ12" = [] := by
  refine ⟨?_, by decide, by decide⟩
  intro s hpar hval
  unfold hexToBuffer
  exact nodeHexDecode_valid _ _ rfl hpar hval

theorem hexToBuffer_node_semantics_witness :
    ((if startsWith0x "0x1234".data then "0x1234".data.drop 2
      else "0x1234".data).length % 2 = 0)
    ∧ hexToBuffer "0x1234" = [0x12, 0x34] := by
  refine ⟨by decide, ?_⟩
  have h := hexToBuffer_node_semantics.1 "0x1234" (by decide) (by decide)
  rw [h]
  decide

/-- C8 (counterexample to the claim as stated): on the odd-digit-count
input `"0xabc"` the source `hexToBuffer` does not fail with `MalformedHex`;
it successfully returns the truncated byte string `[0xab]`, and on the
non-hex input `"0xZZ12"` it successfully returns the empty byte string. -/
theorem hexToBuffer_no_error_on_malformed_input :
    hexToBuffer "0xabc" = [0xab] ∧ hexToBuffer "0xZZ12" = [] := by
  exact ⟨by decide, by decide⟩

/-! ## Keccak-256 -/
/-- 64-bit left rotation. -/
def rotl64 (v s : Nat) : Nat :=
  ((v <<< s) ||| (v >>> (64 - s))) % 2 ^ 64

/-- Keccak-f[1600] round constants. -/
def keccakRC : List Nat :=
  [0x1, 0x8082, 0x800000000000808a, 0x8000000080008000,
   0x808b, 0x80000001, 0x8000000080008081, 0x8000000000008009,
   0x8a, 0x88, 0x80008009, 0x8000000a,
   0x8000808b, 0x800000000000008b, 0x8000000000008089, 0x8000000000008003,
   0x8000000000008002, 0x8000000000000080, 0x800a, 0x800000008000000a,
   0x8000000080008081, 0x8000000000008080, 0x80000001, 0x8000000080008008]

/-- Keccak rotation offsets, indexed as `keccakRot x y`. -/
def keccakRot (x y : Nat) : Nat :=
  ([[0, 36, 3, 41, 18], [1, 44, 10, 45, 2], [62, 6, 43, 15, 61],
    [28, 55, 25, 21, 56], [27, 20, 39, 8, 14]].getD x []).getD y 0

/-- Lane `(x, y)` of a Keccak state stored as a flat 25-lane list. -/
def lane (A : List Nat) (x y : Nat) : Nat :=
  A.getD (x + 5 * y) 0

/-- One Keccak-f round: theta, rho, pi, chi, iota. -/
def keccakRound (A : List Nat) (rc : Nat) : List Nat :=
  let C := (List.range 5).map fun x =>
    lane A x 0 ^^^ lane A x 1 ^^^ lane A x 2 ^^^ lane A x 3 ^^^ lane A x 4
  let D := (List.range 5).map fun x =>
    C.getD ((x + 4) % 5) 0 ^^^ rotl64 (C.getD ((x + 1) % 5) 0) 1
  let A1 := (List.range 25).map fun i => A.getD i 0 ^^^ D.getD (i % 5) 0
  let B := (List.range 25).map fun j =>
    let x := (j % 5 + 3 * (j / 5)) % 5
    let y := j % 5
    rotl64 (lane A1 x y) (keccakRot x y)
  let A2 := (List.range 25).map fun j =>
    let x := j % 5
    let y := j / 5
    lane B x y ^^^ ((lane B ((x + 1) % 5) y ^^^ (2 ^ 64 - 1)) &&& lane B ((x + 2) % 5) y)
  (List.range 25).map fun j => if j = 0 then A2.getD 0 0 ^^^ rc else A2.getD j 0

/-- The full Keccak-f[1600] permutation (24 rounds). -/
def keccakF (A : List Nat) : List Nat :=
  keccakRC.foldl keccakRound A

/-- Interpret up to eight bytes as a little-endian 64-bit lane. -/
def bytesToLaneLE (bs : List Nat) : Nat :=
  bs.foldr (fun b acc => acc * 256 + b) 0

/-- XOR a 136-byte rate block into the first 17 lanes of the state. -/
def absorbBlock (A block : List Nat) : List Nat :=
  (List.range 25).map fun i => A.getD i 0 ^^^ bytesToLaneLE ((block.drop (8 * i)).take 8)

/-- Original Keccak padding (`0x01 … 0x80` domain suffix, not the NIST
SHA-3 `0x06` variant) to a multiple of the 136-byte rate. -/
def keccakPad (msg : List Nat) : List Nat :=
  let padLen := 136 - msg.length % 136
  if padLen = 1 then msg ++ [0x81]
  else msg ++ 0x01 :: List.replicate (padLen - 2) 0 ++ [0x80]

/-- Split a byte list into 136-byte rate blocks. -/
def splitBlocks : Nat → List Nat → List (List Nat)
  | 0, _ => []
  | _ + 1, [] => []
  | fuel + 1, bs => bs.take 136 :: splitBlocks fuel (bs.drop 136)

/-- Modelled from the spec: `keccak256` (§4.3) — the original Keccak-256
with the `0x01` padding, as provided to the repository by `js-sha3`,
`ethers` and `jsr:@std/crypto`.  Returns the 32 digest bytes. -/
def keccak256 (msg : List Nat) : List Nat :=
  let final := (splitBlocks (msg.length + 2) (keccakPad msg)).foldl
    (fun A block => keccakF (absorbBlock A block)) (List.replicate 25 0)
  ((List.range 4).map fun i =>
    (List.range 8).map fun j => final.getD i 0 >>> (8 * j) % 256).flatten

theorem keccak256_lt_256 (msg : List Nat) : ∀ b ∈ keccak256 msg, b < 256 := by
  intro b hb
  unfold keccak256 at hb
  simp only [List.mem_flatten, List.mem_map, List.mem_range] at hb
  obtain ⟨row, ⟨i, _, hrow⟩, hbrow⟩ := hb
  subst hrow
  simp only [List.mem_map, List.mem_range] at hbrow
  obtain ⟨j, _, hj⟩ := hbrow
  subst hj
  exact Nat.mod_lt _ (by omega)

/-! ## Lowercase hex strings -/

/-- Lowercase hex digit character for a value below 16, as produced by
JavaScript's `toString(16)`. -/
def hexChar (d : Nat) : Char :=
  if d < 10 then Char.ofNat ('0'.toNat + d) else Char.ofNat ('a'.toNat + d - 10)

/-- Two-digit lowercase hex of a byte (`b.toString(16).padStart(2, '0')`). -/
def byteHexChars (b : Nat) : List Char :=
  [hexChar (b / 16), hexChar (b % 16)]

/-- Lowercase hex string of a byte buffer
(Node `Buffer.prototype.toString('hex')` / the js-sha3 hex output). -/
def bytesToHex (bs : List Nat) : String :=
  String.mk (bs.map byteHexChars).flatten

theorem hexVal_hexChar (d : Nat) (h : d < 16) : hexVal (hexChar d) = some d := by
  have hball : ∀ e < 16, hexVal (hexChar e) = some e := by decide
  exact hball d h

theorem nodeHexDecode_hexChars (bs : List Nat) (h : ∀ b ∈ bs, b < 256) :
    nodeHexDecode (bs.map byteHexChars).flatten = bs := by
  induction bs with
  | nil => rfl
  | cons b bs ih =>
    have hb := h b (by simp)
    simp only [List.map_cons, List.flatten_cons, byteHexChars, List.cons_append,
      List.nil_append]
    rw [nodeHexDecode]
    rw [hexVal_hexChar (b / 16) (by omega), hexVal_hexChar (b % 16) (by omega)]
    show (b / 16 * 16 + b % 16) :: nodeHexDecode (bs.map byteHexChars).flatten = b :: bs
    rw [ih (fun x hx => h x (by simp [hx]))]
    have hsplit : b / 16 * 16 + b % 16 = b := by omega
    rw [hsplit]

/-- Decoding `"0x" ++ hex(bs)` with `hexToBuffer` restores the bytes. -/
theorem hexToBuffer_bytesToHex (bs : List Nat) (h : ∀ b ∈ bs, b < 256) :
    hexToBuffer ("0x" ++ bytesToHex bs) = bs := by
  unfold hexToBuffer bytesToHex
  have hdata : ("0x" ++ String.mk (bs.map byteHexChars).flatten).data
      = '0' :: 'x' :: (bs.map byteHexChars).flatten := by
    simp [String.data_append]
  rw [hdata]
  simp only [startsWith0x, List.drop_succ_cons, List.drop_zero, if_pos]
  exact nodeHexDecode_hexChars bs h

/-! ## Modular arithmetic and secp256k1

The ECDSA layer lives in the external `elliptic` / `@noble/secp256k1`
libraries, not under `src/`; it is modelled here from the spec (§4.4
step 3, §4.6, §9): ECDSA over secp256k1 with a canonical low-S signature,
a recovery id identifying the nonce point, and public-key recovery from
`(hash, r, s, recid)` alone. -/

/-- Fast modular exponentiation; the fuel argument is instantiated with
`e + 1`, which always suffices for halving recursion on `e`. -/
def powModAux : Nat → Nat → Nat → Nat → Nat
  | 0, _, _, m => 1 % m
  | fuel + 1, b, e, m =>
    if e = 0 then 1 % m
    else
      let h := powModAux fuel (b * b % m) (e / 2) m
      if e % 2 = 1 then h * (b % m) % m else h

/-- `b ^ e % m` by binary exponentiation. -/
def powMod (b e m : Nat) : Nat :=
  powModAux (e + 1) b e m

theorem powModAux_correct (fuel : Nat) :
    ∀ b e m, e < fuel → 0 < m → powModAux fuel b e m = b ^ e % m := by
  induction fuel with
  | zero => omega
  | succ fuel ih =>
    intro b e m he hm
    rw [powModAux]
    by_cases h0 : e = 0
    · simp [h0]
    · rw [if_neg h0]
      have hrec := ih (b * b % m) (e / 2) m (by omega) hm
      have hsplit : b ^ e = (b * b) ^ (e / 2) * b ^ (e % 2) := by
        conv_lhs => rw [show e = 2 * (e / 2) + e % 2 by omega]
        rw [pow_add, pow_mul, pow_two]
      by_cases hpar : e % 2 = 1
      · rw [if_pos hpar, hrec, hsplit, hpar, pow_one]
        conv_rhs => rw [Nat.mul_mod, Nat.pow_mod]
      · rw [if_neg hpar, hrec, hsplit, show e % 2 = 0 by omega, pow_zero, mul_one]
        conv_rhs => rw [Nat.pow_mod]

theorem powMod_correct (b e m : Nat) (hm : 0 < m) : powMod b e m = b ^ e % m :=
  powModAux_correct (e + 1) b e m (Nat.lt_succ_self e) hm

/-- Modular inverse by Fermat's little theorem (`a ^ (m - 2) mod m`); this
is the inverse the `bn.js` `invm` and noble `invert` helpers produce when
`m` is prime and `a` is a unit. -/
def invMod (a m : Nat) : Nat :=
  powMod a (m - 2) m

/-- The secp256k1 field prime `p = 2^256 - 2^32 - 977`. -/
def secpP : Nat :=
  115792089237316195423570985008687907853269984665640564039457584007908834671663

/-- The secp256k1 group order `n`. -/
def secpN : Nat :=
  115792089237316195423570985008687907852837564279074904382605163141518161494337

/-- x-coordinate of the secp256k1 base point `G`. -/
def secpGx : Nat :=
  55066263022277343669578718895168534326250603453777594175500187360389116729240

/-- y-coordinate of the secp256k1 base point `G`. -/
def secpGy : Nat :=
  32670510020758816978083085130507043184471273380659243275938904335757337482424

/-- Affine secp256k1 points: `none` is the point at infinity, and finite
points carry coordinates reduced below `p`. -/
abbrev ECPoint := Option (Nat × Nat)

/-- Point doubling with the affine tangent formula. -/
def pDouble : ECPoint → ECPoint
  | none => none
  | some (x, y) =>
    if y = 0 then none
    else
      let l := 3 * x * x % secpP * invMod (2 * y % secpP) secpP % secpP
      let xr := (l * l + (secpP - x % secpP) + (secpP - x % secpP)) % secpP
      let yr := (l * (x + (secpP - xr)) + (secpP - y % secpP)) % secpP
      some (xr, yr)

/-- Point addition with the affine chord formula. -/
def pAdd : ECPoint → ECPoint → ECPoint
  | none, Q => Q
  | P, none => P
  | some (x₁, y₁), some (x₂, y₂) =>
    if x₁ % secpP = x₂ % secpP then
      if (y₁ + y₂) % secpP = 0 then none else pDouble (some (x₁, y₁))
    else
      let l := (y₂ + (secpP - y₁ % secpP))
        * invMod ((x₂ + (secpP - x₁ % secpP)) % secpP) secpP % secpP
      let xr := (l * l + (secpP - x₁ % secpP) + (secpP - x₂ % secpP)) % secpP
      let yr := (l * (x₁ + (secpP - xr)) + (secpP - y₁ % secpP)) % secpP
      some (xr, yr)

/-- Double-and-add scalar multiplication (least significant bit first);
fuel `k + 1` always suffices. -/
def psmulAux : Nat → Nat → ECPoint → ECPoint
  | 0, _, _ => none
  | fuel + 1, k, P =>
    if k = 0 then none
    else
      let h := psmulAux fuel (k / 2) (pDouble P)
      if k % 2 = 1 then pAdd h P else h

/-- `k • P` on secp256k1. -/
def psmul (k : Nat) (P : ECPoint) : ECPoint :=
  psmulAux (k + 1) k P

/-- The secp256k1 base point. -/
def pG : ECPoint :=
  some (secpGx, secpGy)

/-- Modelled from the spec: ECDSA signing over secp256k1 (spec §4.4
step 3) as performed by `elliptic`'s `keyPair.sign(msgHash, {canonical:
true})` and noble's `sign` (low-S default).  The RFC6979/random nonce `k`
is an explicit argument; the result is `(r, s, recid)` with a canonical
(low-S) `s` and the recovery id encoding the parity of the nonce point's
y-coordinate (bit 0) and the x-overflow `r < x` case (bit 1). -/
def ecSign (z d k : Nat) : Option (Nat × Nat × Nat) :=
  match psmul k pG with
  | none => none
  | some (xR, yR) =>
    let r := xR % secpN
    if r = 0 then none
    else
      let s₀ := invMod k secpN * ((z % secpN + r * d) % secpN) % secpN
      if s₀ = 0 then none
      else
        let recid₀ := (if secpN ≤ xR then 2 else 0) + yR % 2
        if secpN - s₀ < s₀ then some (r, secpN - s₀, recid₀ ^^^ 1)
        else some (r, s₀, recid₀)

/-- Modelled from the spec: public-key recovery from `(hash, r, s, recid)`
(spec §4.6 and glossary) as performed by `elliptic`'s `recoverPubKey`:
rebuild the nonce point from `r` and the recovery id (bit 1 selects the
`x = r + n` candidate, bit 0 the y-parity), then return
`r⁻¹ · (s·R - z·G)`. -/
def ecRecover (z r s recid : Nat) : ECPoint :=
  let x := r + recid / 2 * secpN
  if secpP ≤ x then none
  else
    let ySq := (powMod x 3 secpP + 7) % secpP
    let y₀ := powMod ySq ((secpP + 1) / 4) secpP
    if y₀ * y₀ % secpP ≠ ySq then none
    else
      let y := if y₀ % 2 = recid % 2 then y₀ else (secpP - y₀) % secpP
      let rInv := invMod r secpN
      let u₁ := (secpN - z % secpN) % secpN * rInv % secpN
      let u₂ := s * rInv % secpN
      pAdd (psmul u₁ pG) (psmul u₂ (some (x, y)))

/-! ## Transaction model and signers -/

/-- The `Transaction` record from `src/type.ts`: `bigint` fields modelled
by `Nat`, addresses and calldata kept as the hex strings the source
passes around. -/
structure Tx where
  nonce : Nat
  gasPrice : Nat
  gasLimit : Nat
  «to» : String
  value : Nat
  data : String
  chainId : Nat

/-- JavaScript truthiness of a string: only the empty string is falsy. -/
def jsTruthy (s : String) : Bool :=
  decide (s.data ≠ [])

/-- Modelled from the spec (§4.2): ethers' `encodeRlp` / viem's `toRlp`
implement canonical RLP and return a `"0x"`-prefixed lowercase hex string;
on arrays of byte strings this coincides with the repository's own
`rlpEncode` (cf. `rlp_encoding_rules_byte_exact`). -/
def ethersEncodeRlp (items : List (List Nat)) : String :=
  "0x" ++ bytesToHex (rlpEncode (.list (items.map .bytes)))

/-- Modelled from the spec (§4.3): ethers' `keccak256`, which decodes its
`"0x"` hex-string argument to bytes, hashes them with original Keccak-256
and returns the digest as a `"0x"`-prefixed lowercase hex string. -/
def ethersKeccak (s : String) : String :=
  "0x" ++ bytesToHex (keccak256 (hexToBuffer s))

/-- The nine-element EIP-155 signing preimage array built by `sign`
(`src/signature.ts`, variant `src/unnamed/part_002`, lines 14–32):
`[nonce, gasPrice, gasLimit, to, value, data, chainId, empty, empty]`,
each integer through `intToBuffer` and the two string fields hex-decoded
when truthy. -/
def preimageItems (tx : Tx) : List (List Nat) :=
  [intToBuffer tx.nonce, intToBuffer tx.gasPrice, intToBuffer tx.gasLimit,
   if jsTruthy tx.«to» then hexToBuffer tx.«to» else [],
   intToBuffer tx.value,
   if jsTruthy tx.data then hexToBuffer tx.data else [],
   intToBuffer tx.chainId, [], []]

/-- The message hash signed by `sign`: keccak256 of the RLP encoding of
the preimage array, converted back to bytes with `hexToBuffer`
(`msgHash = hexToBuffer(keccak256(encodeRlp(rlpArray)))`). -/
def signMsgHash (tx : Tx) : List Nat :=
  hexToBuffer (ethersKeccak (ethersEncodeRlp (preimageItems tx)))

/-- EIP-155 `v` as computed on line 45 of the `sign` source:
`v = BigInt(tx.chainId) * 2n + 35n + BigInt(recoveryParam)`. -/
def eip155V (chainId recid : Nat) : Nat :=
  chainId * 2 + 35 + recid

/-- Big-endian 32-byte encoding, the `toArrayLike(Uint8Array, 'be', 32)`
applied to `r` and `s`. -/
def natToBytesBE32 (v : Nat) : List Nat :=
  (List.range 32).map fun i => v >>> (8 * (31 - i)) % 256

/-- The nine-element signed array built by `sign` (lines 47–57):
`[nonce, gasPrice, gasLimit, to, value, data, v, r, s]` with `v` through
`intToBuffer` and `r`, `s` as fixed 32-byte big-endian strings. -/
def signedItems (tx : Tx) (v r s : Nat) : List (List Nat) :=
  [intToBuffer tx.nonce, intToBuffer tx.gasPrice, intToBuffer tx.gasLimit,
   if jsTruthy tx.«to» then hexToBuffer tx.«to» else [],
   intToBuffer tx.value,
   if jsTruthy tx.data then hexToBuffer tx.data else [],
   intToBuffer v, natToBytesBE32 r, natToBytesBE32 s]

/-- `sign` from `src/signature.ts` (variant `src/unnamed/part_002`), the
canonical raw-transaction signer used by the CLI and the recovery test.
The private key scalar `d` (parsed by `keyFromPrivate` from the hex
string) and the ECDSA nonce `k` (drawn by `elliptic` via RFC6979) are
explicit arguments; `none` models the `recoveryParam is null` throw. -/
def sign (d : Nat) (tx : Tx) (k : Nat) : Option String :=
  match ecSign (bytesToNat (signMsgHash tx)) d k with
  | none => none
  | some (r, s, recid) =>
    some (ethersEncodeRlp (signedItems tx (eip155V tx.chainId recid) r s))

/-- C4: EIP-155 `v` and its inverse: for every chain id and recovery id in
`{0, 1}`, the signer's `v` equals `chainId * 2 + 35 + recid`, the signed
array carries `intToBuffer v` in its seventh slot, and decoding that field
and subtracting `chainId * 2 + 35` restores the recovery id. -/
theorem eip155_v_roundtrip :
    ∀ chainId recid : Nat, recid < 2 →
      eip155V chainId recid = chainId * 2 + 35 + recid
      ∧ (∀ tx v r s, (signedItems tx v r s).getD 6 [] = intToBuffer v)
      ∧ bytesToNat (intToBuffer (eip155V chainId recid))
          - (chainId * 2 + 35) = recid := by
  intro chainId recid h
  refine ⟨rfl, fun tx v r s => rfl, ?_⟩
  rw [bytesToNat_intToBuffer]
  unfold eip155V
  omega

theorem eip155_v_roundtrip_witness :
    ((1 : Nat) < 2
      ∧ (eip155V 1 1 = 1 * 2 + 35 + 1
        ∧ (∀ tx v r s, (signedItems tx v r s).getD 6 [] = intToBuffer v)
        ∧ bytesToNat (intToBuffer (eip155V 1 1)) - (1 * 2 + 35) = 1))
    ∧ ((0 : Nat) < 2
      ∧ (eip155V 84532 0 = 84532 * 2 + 35 + 0
        ∧ (∀ tx v r s, (signedItems tx v r s).getD 6 [] = intToBuffer v)
        ∧ bytesToNat (intToBuffer (eip155V 84532 0)) - (84532 * 2 + 35) = 0)) :=
  ⟨⟨by decide, eip155_v_roundtrip 1 1 (by decide)⟩,
   ⟨by decide, eip155_v_roundtrip 84532 0 (by decide)⟩⟩

/-! ## Byte bounds for encoded output -/

theorem hexVal_lt_16 (c : Char) (v : Nat) (h : hexVal c = some v) : v < 16 := by
  unfold hexVal at h
  split_ifs at h with h1 h2 h3 <;> injection h with h <;> subst h <;>
    simp only [Char.toNat]
  · have hb : c.val.toNat ≤ 57 := h1.2
    have h0 : ('0').val.toNat = 48 := rfl
    omega
  · have hb : c.val.toNat ≤ 102 := h2.2
    have ha : 97 ≤ c.val.toNat := h2.1
    have h0 : ('a').val.toNat = 97 := rfl
    omega
  · have hb : c.val.toNat ≤ 70 := h3.2
    have ha : 65 ≤ c.val.toNat := h3.1
    have h0 : ('A').val.toNat = 65 := rfl
    omega

theorem nodeHexDecode_lt_256_aux : ∀ l (cs : List Char), cs.length = l →
    ∀ b ∈ nodeHexDecode cs, b < 256 := by
  intro l
  induction l using Nat.strong_induction_on with
  | _ l ih =>
    intro cs hl b hb
    match cs with
    | [] => simp [nodeHexDecode] at hb
    | [c] => simp [nodeHexDecode] at hb
    | c₁ :: c₂ :: rest =>
      rw [nodeHexDecode] at hb
      simp only [List.length_cons] at hl
      rcases hv₁ : hexVal c₁ with _ | v₁ <;> rcases hv₂ : hexVal c₂ with _ | v₂ <;>
        rw [hv₁, hv₂] at hb
      · exact absurd hb (List.not_mem_nil b)
      · exact absurd hb (List.not_mem_nil b)
      · exact absurd hb (List.not_mem_nil b)
      · rcases List.mem_cons.mp hb with h0 | h0
        · have := hexVal_lt_16 c₁ v₁ hv₁
          have := hexVal_lt_16 c₂ v₂ hv₂
          omega
        · exact ih rest.length (by omega) rest rfl b h0

theorem nodeHexDecode_lt_256 (cs : List Char) : ∀ b ∈ nodeHexDecode cs, b < 256 :=
  nodeHexDecode_lt_256_aux cs.length cs rfl

theorem hexToBuffer_lt_256 (s : String) : ∀ b ∈ hexToBuffer s, b < 256 := by
  unfold hexToBuffer
  exact nodeHexDecode_lt_256 _

theorem hexDigits_length_le (k : Nat) : ∀ n, n < 16 ^ k → 0 < k →
    (hexDigits n).length ≤ k := by
  induction k with
  | zero => omega
  | succ k ih =>
    intro n hn _
    rw [hexDigits_eq]
    by_cases h16 : n < 16
    · rw [if_pos h16]
      simp
    · rw [if_neg h16]
      have hk : 0 < k := by
        by_contra h0
        have : k = 0 := by omega
        subst this
        simp at hn
        omega
      have : n / 16 < 16 ^ k := by
        rw [pow_succ] at hn
        omega
      have := ih (n / 16) this hk
      simp [List.length_append]
      omega

theorem intToBuffer_length_le (m n : Nat) (h : n < 16 ^ (2 * m)) (hm : 0 < m) :
    (intToBuffer n).length ≤ m := by
  unfold intToBuffer
  by_cases h0 : n = 0
  · simp [h0]
  · simp only [if_neg h0]
    have hd := hexDigits_length_le (2 * m) n h (by omega)
    by_cases hodd : (hexDigits n).length % 2 = 1
    · rw [if_pos hodd, pairsToBytes_length (0 :: hexDigits n).length _ rfl]
      simp only [List.length_cons]
      omega
    · rw [if_neg hodd, pairsToBytes_length (hexDigits n).length _ rfl]
      omega

theorem rlpEncode_bytes_lt_256 (bs : List Nat) (hb : ∀ b ∈ bs, b < 256)
    (hl : bs.length < 2 ^ 32) : ∀ b ∈ rlpEncode (.bytes bs), b < 256 := by
  intro b hmem
  rw [rlpEncode_bytes_cases] at hmem
  split_ifs at hmem with h1 h2
  · exact hb b hmem
  · rcases List.mem_cons.mp hmem with h0 | h0
    · omega
    · exact hb b h0
  · rcases List.mem_cons.mp hmem with h0 | h0
    · have hlen : (encodeLength bs.length).length ≤ 4 := by
        rw [encodeLength_eq_intToBuffer _ (by omega)]
        exact intToBuffer_length_le 4 _ (by norm_num at hl ⊢; omega) (by omega)
      omega
    · rcases List.mem_append.mp h0 with h0 | h0
      · rw [encodeLength_eq_intToBuffer _ (by omega)] at h0
        exact intToBuffer_lt_256 _ b h0
      · exact hb b h0

theorem rlpEncode_bytes_length_ge (bs : List Nat) :
    bs.length ≤ (rlpEncode (.bytes bs)).length := by
  rw [rlpEncode_bytes_cases]
  split_ifs with h1 h2
  · omega
  · simp
  · simp [List.length_append]
    omega

theorem rlpEncodeList_length_ge (items : List RlpInput) (x : RlpInput)
    (hx : x ∈ items) : (rlpEncode x).length ≤ (rlpEncodeList items).length := by
  induction items with
  | nil => simp at hx
  | cons y ys ih =>
    rw [rlpEncodeList]
    rcases List.mem_cons.mp hx with h0 | h0
    · subst h0
      simp [List.length_append]
    · have := ih h0
      simp [List.length_append]
      omega

theorem rlpEncodeList_bytes_lt_256 (items : List (List Nat))
    (hb : ∀ bs ∈ items, ∀ b ∈ bs, b < 256)
    (hlen : ∀ bs ∈ items, bs.length < 2 ^ 32) :
    ∀ b ∈ rlpEncodeList (items.map .bytes), b < 256 := by
  induction items with
  | nil => simp [rlpEncodeList]
  | cons x xs ih =>
    intro b hmem
    simp only [List.map_cons] at hmem
    rw [rlpEncodeList] at hmem
    rcases List.mem_append.mp hmem with h0 | h0
    · exact rlpEncode_bytes_lt_256 x (hb x (by simp)) (hlen x (by simp)) b h0
    · exact ih (fun bs h => hb bs (by simp [h])) (fun bs h => hlen bs (by simp [h])) b h0

theorem rlpEncode_bytesList_lt_256 (items : List (List Nat))
    (hb : ∀ bs ∈ items, ∀ b ∈ bs, b < 256)
    (hlen : (rlpEncodeList (items.map .bytes)).length < 2 ^ 32) :
    ∀ b ∈ rlpEncode (.list (items.map .bytes)), b < 256 := by
  have hitem : ∀ bs ∈ items, bs.length < 2 ^ 32 := by
    intro bs hbs
    have h1 := rlpEncode_bytes_length_ge bs
    have h2 := rlpEncodeList_length_ge (items.map .bytes) (.bytes bs)
      (List.mem_map_of_mem _ hbs)
    omega
  intro b hmem
  rw [rlpEncode_list_cases] at hmem
  split_ifs at hmem with h1
  · rcases List.mem_cons.mp hmem with h0 | h0
    · omega
    · exact rlpEncodeList_bytes_lt_256 items hb hitem b h0
  · rcases List.mem_cons.mp hmem with h0 | h0
    · have hl4 : (encodeLength (rlpEncodeList (items.map .bytes)).length).length ≤ 4 := by
        rw [encodeLength_eq_intToBuffer _ (by omega)]
        exact intToBuffer_length_le 4 _ (by norm_num at hlen ⊢; omega) (by omega)
      omega
    · rcases List.mem_append.mp h0 with h0 | h0
      · rw [encodeLength_eq_intToBuffer _ (by omega)] at h0
        exact intToBuffer_lt_256 _ b h0
      · exact rlpEncodeList_bytes_lt_256 items hb hitem b h0

theorem preimageItems_lt_256 (tx : Tx) :
    ∀ bs ∈ preimageItems tx, ∀ b ∈ bs, b < 256 := by
  intro bs hbs
  unfold preimageItems at hbs
  simp only [List.mem_cons, List.not_mem_nil, or_false] at hbs
  rcases hbs with h | h | h | h | h | h | h | h | h <;> subst h <;>
    first
    | exact intToBuffer_lt_256 _
    | (intro b hb
       split_ifs at hb with ht
       · exact hexToBuffer_lt_256 _ b hb
       · exact absurd hb (List.not_mem_nil b))
    | (intro b hb
       exact absurd hb (List.not_mem_nil b))

/-- C2: the message hash signed by `sign` is keccak256 of the RLP encoding
of exactly the nine-element array `[intToBuffer nonce, intToBuffer
gasPrice, intToBuffer gasLimit, to-bytes-or-empty, intToBuffer value,
data-bytes, intToBuffer chainId, empty, empty]`, the two trailing elements
being zero-length byte strings.  The hypothesis bounds the preimage
payload by the JavaScript typed-array limit. -/
theorem sign_preimage_hash (tx : Tx)
    (hsize : (rlpEncodeList ((preimageItems tx).map .bytes)).length < 2 ^ 32) :
    signMsgHash tx = keccak256 (rlpEncode (.list
      [.bytes (intToBuffer tx.nonce), .bytes (intToBuffer tx.gasPrice),
       .bytes (intToBuffer tx.gasLimit),
       .bytes (if jsTruthy tx.«to» then hexToBuffer tx.«to» else []),
       .bytes (intToBuffer tx.value),
       .bytes (if jsTruthy tx.data then hexToBuffer tx.data else []),
       .bytes (intToBuffer tx.chainId), .bytes [], .bytes []])) := by
  unfold signMsgHash ethersKeccak ethersEncodeRlp
  rw [hexToBuffer_bytesToHex _
      (rlpEncode_bytesList_lt_256 _ (preimageItems_lt_256 tx) hsize),
    hexToBuffer_bytesToHex _ (keccak256_lt_256 _)]
  rfl

theorem sign_preimage_hash_witness :
    (rlpEncodeList ((preimageItems
        ⟨0, 1000000000, 21000, "0x70997970C51812dc3A010C7d01b50e0d17dc79C8",
          1, "0x", 1⟩).map .bytes)).length < 2 ^ 32
    ∧ signMsgHash
        ⟨0, 1000000000, 21000, "0x70997970C51812dc3A010C7d01b50e0d17dc79C8",
          1, "0x", 1⟩
      = keccak256 (rlpEncode (.list
        [.bytes (intToBuffer 0), .bytes (intToBuffer 1000000000),
         .bytes (intToBuffer 21000),
         .bytes (if jsTruthy "0x70997970C51812dc3A010C7d01b50e0d17dc79C8"
           then hexToBuffer "0x70997970C51812dc3A010C7d01b50e0d17dc79C8" else []),
         .bytes (intToBuffer 1),
         .bytes (if jsTruthy "0x" then hexToBuffer "0x" else []),
         .bytes (intToBuffer 1), .bytes [], .bytes []])) :=
  ⟨by decide, sign_preimage_hash _ (by decide)⟩

/-! ## EIP-191 message signing and the noble-based transaction signer -/

/-- Big-endian base-10 digits, total via the `n + 1` fuel pattern
(JavaScript's decimal `toString`/template-string rendering). -/
def decDigitsAux : Nat → Nat → List Nat
  | 0, _ => []
  | fuel + 1, n => if n < 10 then [n] else decDigitsAux fuel (n / 10) ++ [n % 10]

/-- Decimal digits of `n`, most significant first. -/
def decDigits (n : Nat) : List Nat :=
  decDigitsAux (n + 1) n

/-- The decimal ASCII rendering `${n}` of a JavaScript number. -/
def natToDecStr (n : Nat) : String :=
  String.mk ((decDigits n).map fun d => Char.ofNat ('0'.toNat + d))

/-- 64-character lowercase hex of a 32-byte big-endian value, the per-field
format of noble's `toCompactHex`. -/
def hex64 (x : Nat) : String :=
  bytesToHex (natToBytesBE32 x)

/-- `v.toString(16).padStart(2, '0')`. -/
def hexPad2 (v : Nat) : String :=
  let ds := (hexDigits v).map hexChar
  String.mk (if ds.length < 2 then '0' :: ds else ds)

/-- The byte view of a JavaScript `string | Uint8Array` message: strings
are UTF-8 encoded with `TextEncoder`, byte arrays pass through. -/
def messageBytes : String ⊕ List Nat → List Nat
  | .inl s => strUtf8 s
  | .inr bs => bs

/-- The EIP-191 payload built by `signMessage` (`src/signature.ts`
lines 63–69): the prefix string `"\x19Ethereum Signed Message:\n"`
followed immediately by the decimal byte length, then the message bytes. -/
def eip191Payload (data : List Nat) : List Nat :=
  strUtf8 ("\x19Ethereum Signed Message:\n" ++ natToDecStr data.length) ++ data

/-- `signMessage` from `src/signature.ts` (lines 59–76): hash the EIP-191
payload with js-sha3 `keccak256`, sign with noble (which rejects private
scalars outside `[1, n-1]` — modelled as `none` — and takes the RFC6979
nonce `k` here as an explicit argument), and return
`'0x' + sig.toCompactHex() + vHex` with `v = sig.recovery ?? 0`. -/
def signMessage (m : String ⊕ List Nat) (d k : Nat) : Option String :=
  let data := messageBytes m
  let msgHashHex := bytesToHex (keccak256 (eip191Payload data))
  if d = 0 ∨ secpN ≤ d then none
  else
    match ecSign (bytesToNat (hexToBuffer msgHashHex)) d k with
    | none => none
    | some (r, s, recid) => some ("0x" ++ hex64 r ++ hex64 s ++ hexPad2 recid)

/-- `signTransaction` from `src/signature.ts` (lines 16–50): builds the
EIP-155 preimage array, RLP-encodes it with viem's `toRlp` (a
`"0x"`-prefixed hex string), hashes that *string* with js-sha3 `keccak256`
(which UTF-8-encodes string arguments), signs the digest with noble, and
returns `'0x' + sig.toCompactHex() + vHex` with
`v = chainId * 2 + 35 + recovery`. -/
def signTransactionNoble (tx : Tx) (d chainId k : Nat) : Option String :=
  let items := [intToBuffer tx.nonce, intToBuffer tx.gasPrice,
    intToBuffer tx.gasLimit,
    if jsTruthy tx.«to» then hexToBuffer tx.«to» else [],
    intToBuffer tx.value,
    if jsTruthy tx.data then hexToBuffer tx.data else [],
    intToBuffer chainId, [], []]
  let encoded := ethersEncodeRlp items
  let msgHashHex := bytesToHex (keccak256 (strUtf8 encoded))
  if d = 0 ∨ secpN ≤ d then none
  else
    match ecSign (bytesToNat (hexToBuffer msgHashHex)) d k with
    | none => none
    | some (r, s, recid) =>
      some ("0x" ++ hex64 r ++ hex64 s ++ hexPad2 (chainId * 2 + 35 + recid))

theorem hexChar_ne_x (d : Nat) (h : d < 16) : hexChar d ≠ 'x' := by
  have hball : ∀ e < 16, hexChar e ≠ 'x' := by decide
  exact hball d h

/-- An unprefixed lowercase hex rendering decodes back to the bytes. -/
theorem hexToBuffer_bytesToHex_bare (bs : List Nat) (h : ∀ b ∈ bs, b < 256) :
    hexToBuffer (bytesToHex bs) = bs := by
  unfold hexToBuffer bytesToHex
  have hdata : (String.mk (bs.map byteHexChars).flatten).data
      = (bs.map byteHexChars).flatten := rfl
  rw [hdata]
  have hpre : startsWith0x (bs.map byteHexChars).flatten = false := by
    match bs with
    | [] => rfl
    | b :: rest =>
      have hb := h b (by simp)
      simp only [List.map_cons, List.flatten_cons, byteHexChars,
        List.cons_append, List.nil_append, startsWith0x]
      have : (hexChar (b % 16) == 'x') = false := by
        simp [hexChar_ne_x (b % 16) (by omega)]
      simp [this]
  rw [hpre, if_neg (by simp)]
  exact nodeHexDecode_hexChars bs h

theorem strUtf8_foldr_acc (cs : List Char) (acc : List Nat) :
    cs.foldr (fun c a => utf8Bytes c ++ a) acc
      = cs.foldr (fun c a => utf8Bytes c ++ a) [] ++ acc := by
  induction cs with
  | nil => simp
  | cons c cs ih => simp [List.foldr_cons, ih]

theorem strUtf8_append (a b : String) :
    strUtf8 (a ++ b) = strUtf8 a ++ strUtf8 b := by
  unfold strUtf8
  rw [String.data_append, List.foldr_append, strUtf8_foldr_acc a.data]

theorem bytesToHex_length (bs : List Nat) :
    (bytesToHex bs).data.length = 2 * bs.length := by
  unfold bytesToHex
  have : (String.mk (bs.map byteHexChars).flatten).data
      = (bs.map byteHexChars).flatten := rfl
  rw [this]
  induction bs with
  | nil => rfl
  | cons b rest ih =>
    simp only [List.map_cons, List.flatten_cons, List.length_append, ih,
      byteHexChars, List.length_cons, List.length_nil, List.length_map]
    simp [List.length_map] at ih ⊢
    omega

theorem natToBytesBE32_length (x : Nat) : (natToBytesBE32 x).length = 32 := by
  simp [natToBytesBE32]

/-- C7: EIP-191 message signing: the hashed payload is exactly
`"\x19Ethereum Signed Message:\n" ++ decimal(byte length) ++ message` with
no separator, and the returned string is `"0x" ++ hex(r) ++ hex(s) ++
hex(recid)` — a 65-byte compact signature whose trailing byte is the raw
recovery id (rendered `"00"`/`"01"`, never 27/28). -/
theorem signMessage_eip191 :
    (∀ data : List Nat,
      eip191Payload data
        = strUtf8 "\x19Ethereum Signed Message:\n"
          ++ strUtf8 (natToDecStr data.length) ++ data)
    ∧ (∀ m d k out, signMessage m d k = some out →
        ∃ r s recid,
          ecSign (bytesToNat (keccak256 (eip191Payload (messageBytes m)))) d k
            = some (r, s, recid)
          ∧ out = "0x" ++ hex64 r ++ hex64 s ++ hexPad2 recid
          ∧ (hex64 r).data.length = 64 ∧ (hex64 s).data.length = 64
          ∧ (recid < 2 → hexPad2 recid = if recid = 0 then "00" else "01")) := by
  constructor
  · intro data
    unfold eip191Payload
    rw [strUtf8_append, List.append_assoc]
  · intro m d k out h
    simp only [signMessage] at h
    rw [hexToBuffer_bytesToHex_bare _ (keccak256_lt_256 _)] at h
    split_ifs at h with hd
    rcases hsig : ecSign (bytesToNat (keccak256 (eip191Payload (messageBytes m)))) d k
      with _ | ⟨r, s, recid⟩
    · rw [hsig] at h
      exact absurd h (by simp)
    · rw [hsig] at h
      refine ⟨r, s, recid, rfl, ?_, ?_, ?_, ?_⟩
      · simpa using h.symm
      · rw [show (hex64 r).data.length = 2 * (natToBytesBE32 r).length from
          bytesToHex_length _, natToBytesBE32_length]
      · rw [show (hex64 s).data.length = 2 * (natToBytesBE32 s).length from
          bytesToHex_length _, natToBytesBE32_length]
      · intro hrec
        match recid, hrec with
        | 0, _ => decide
        | 1, _ => decide

theorem signMessage_eip191_witness :
    signMessage (.inl "hello") 1 1
      = some "0x79be667ef9dcbbac55a06295ce870b07029bfcdb2dce28d959f2815b16f81798358ed54132923d98aea58fc6e1b4c415bef4a374974fa87fa9abcb92268ab25901"
    ∧ ∃ r s recid,
        ecSign (bytesToNat (keccak256 (eip191Payload
            (messageBytes (.inl "hello"))))) 1 1 = some (r, s, recid)
        ∧ "0x79be667ef9dcbbac55a06295ce870b07029bfcdb2dce28d959f2815b16f81798358ed54132923d98aea58fc6e1b4c415bef4a374974fa87fa9abcb92268ab25901"
          = "0x" ++ hex64 r ++ hex64 s ++ hexPad2 recid
        ∧ (hex64 r).data.length = 64 ∧ (hex64 s).data.length = 64
        ∧ (recid < 2 → hexPad2 recid = if recid = 0 then "00" else "01") :=
  have hEval : signMessage (.inl "hello") 1 1
      = some "0x79be667ef9dcbbac55a06295ce870b07029bfcdb2dce28d959f2815b16f81798358ed54132923d98aea58fc6e1b4c415bef4a374974fa87fa9abcb92268ab25901" := by
    decide
  ⟨hEval, signMessage_eip191.2 (.inl "hello") 1 1 _ hEval⟩

/-! ## Concrete signing evaluations (C3, C9) -/

/-- The recovery test's transaction shape: nonce 0, gasPrice 10^9,
gasLimit 21000, a 20-byte recipient, value 1, empty data, chainId 1. -/
def txExample : Tx :=
  ⟨0, 1000000000, 21000, "0x70997970C51812dc3A010C7d01b50e0d17dc79C8", 1, "0x", 1⟩

/-- The same transaction with `chainId = 0`. -/
def txChain0 : Tx :=
  ⟨0, 1000000000, 21000, "0x70997970C51812dc3A010C7d01b50e0d17dc79C8", 1, "0x", 0⟩

/-- C3 (the code evaluated at the failing input): the noble-based
`signTransaction` of `src/signature.ts` returns the 65-byte compact
signature `'0x' + r ‖ s ‖ v` — not the RLP encoding of the nine-element
signed array, not even of its own `(v, r, s)` — while the canonical
`sign` returns exactly `"0x" ++ hex (rlpEncode signedArray)` with
`r`, `s` as fixed 32-byte fields, as the claim states. -/
theorem signTransaction_compact_not_rlp :
    signTransactionNoble txExample 1 1 1
      = some "0x79be667ef9dcbbac55a06295ce870b07029bfcdb2dce28d959f2815b16f817985d952be1ef18d55312d529f9cc696436d60e4111a3499c252945b22f01c5e50a26"
    ∧ "0x79be667ef9dcbbac55a06295ce870b07029bfcdb2dce28d959f2815b16f817985d952be1ef18d55312d529f9cc696436d60e4111a3499c252945b22f01c5e50a26"
      ≠ ethersEncodeRlp (signedItems txExample 38
          0x79be667ef9dcbbac55a06295ce870b07029bfcdb2dce28d959f2815b16f81798
          0x5d952be1ef18d55312d529f9cc696436d60e4111a3499c252945b22f01c5e50a)
    ∧ sign 1 txExample 1
      = some (ethersEncodeRlp (signedItems txExample 38
          0x79be667ef9dcbbac55a06295ce870b07029bfcdb2dce28d959f2815b16f81798
          0x6a4ea16a4eb237eda830564d4462e3daec97611aa2b7933ce52677c716f028ec)) := by
  refine ⟨by decide, by decide, by decide⟩

/-- C9 (counterexample): no code path fails on `chainId ≤ 0` or rejects an
invalid private key in the canonical signer: `sign` succeeds for
`chainId = 0` and even for the invalid scalar `d = 0`, and the noble-based
`signTransaction` succeeds for `chainId = 0`. -/
theorem sign_no_validation_counterexample :
    sign 1 txChain0 1
      = some "0xf86380843b9aca008252089470997970c51812dc3a010c7d01b50e0d17dc79c8018023a079be667ef9dcbbac55a06295ce870b07029bfcdb2dce28d959f2815b16f81798a030198077820daf30091bc4d67a7c2b40d6233058d32a5ac26a7aa8ef165f6474"
    ∧ sign 0 txExample 1
      = some "0xf86380843b9aca008252089470997970c51812dc3a010c7d01b50e0d17dc79c8018025a079be667ef9dcbbac55a06295ce870b07029bfcdb2dce28d959f2815b16f81798a01bf2f816b7710c66022f471ced16111ccb7b7ef0dec2e42580b9656aa24e00bd"
    ∧ signTransactionNoble txExample 1 0 1
      = some "0x79be667ef9dcbbac55a06295ce870b07029bfcdb2dce28d959f2815b16f817983269a806f0fb4dc3a47876250c5f3945359cbffe3de74f9e7106e9b2ab462cac24" := by
  refine ⟨by decide, by decide, by decide⟩

/-- C9 (amended): the only validation anywhere in the signing paths is
noble's private-scalar range check inside `signTransaction`, surfaced as a
generic thrown error (modelled `none`); `chainId` is never validated and
the elliptic-based `sign` accepts any key material. -/
theorem signTransaction_validation :
    (∀ tx d chainId k, d = 0 ∨ secpN ≤ d →
      signTransactionNoble tx d chainId k = none)
    ∧ sign 1 txChain0 1 ≠ none
    ∧ signTransactionNoble txExample 1 0 1 ≠ none := by
  refine ⟨?_, by decide, by decide⟩
  intro tx d chainId k h
  simp only [signTransactionNoble]
  rw [if_pos h]

theorem signTransaction_validation_witness :
    ((0 : Nat) = 0 ∨ secpN ≤ 0)
    ∧ signTransactionNoble txExample 0 1 1 = none :=
  ⟨Or.inl rfl, signTransaction_validation.1 txExample 0 1 1 (Or.inl rfl)⟩

/-! ## Primality certificates for the secp256k1 constants -/

theorem zmod_pow_natCast (a e m : Nat) (hm : 0 < m) :
    ((a : Nat) : ZMod m) ^ e = ((powMod a e m : Nat) : ZMod m) := by
  rw [powMod_correct a e m hm, ZMod.natCast_mod, Nat.cast_pow]

theorem zmod_natCast_ne_one (c m : Nat) (hclt : c < m) (hc : c ≠ 1)
    (hm : 1 < m) : ((c : Nat) : ZMod m) ≠ 1 := by
  intro h
  have hval := congrArg ZMod.val h
  rw [ZMod.val_cast_of_lt hclt, ZMod.val_one_eq_one_mod] at hval
  rw [Nat.mod_eq_of_lt hm] at hval
  exact hc hval

theorem prime_dvd_prod_pow (q : Nat) (hq : q.Prime) :
    ∀ L : List (Nat × Nat), (∀ qe ∈ L, (qe.1).Prime) →
      q ∣ (L.map fun qe => qe.1 ^ qe.2).prod → q ∈ L.map fun qe => qe.1 := by
  intro L
  induction L with
  | nil =>
    intro _ hdvd
    simp at hdvd
    exact absurd hdvd hq.ne_one
  | cons qe rest ih =>
    intro hprimes hdvd
    simp only [List.map_cons, List.prod_cons] at hdvd
    rcases (Nat.Prime.dvd_mul hq).mp hdvd with h | h
    · have hqq : q ∣ qe.1 := hq.dvd_of_dvd_pow h
      have : q = qe.1 :=
        (Nat.prime_dvd_prime_iff_eq hq (hprimes qe (by simp))).mp hqq
      simp [this]
    · have := ih (fun x hx => hprimes x (by simp [hx])) h
      simp [this]

/-- Lucas primality from a fully factored `P - 1`, a witness `a`, and
kernel-checked `powMod` computations. -/
theorem prime_of_cert (P a : Nat) (L : List (Nat × Nat)) (hP : 1 < P)
    (hprod : (L.map fun qe => qe.1 ^ qe.2).prod = P - 1)
    (hprimes : ∀ qe ∈ L, Nat.Prime qe.1)
    (hpow : powMod a (P - 1) P = 1)
    (hq : ∀ qe ∈ L, powMod a ((P - 1) / qe.1) P ≠ 1) : Nat.Prime P := by
  apply lucas_primality P ((a : Nat) : ZMod P)
  · rw [zmod_pow_natCast a _ P (by omega), hpow]
    exact Nat.cast_one
  · intro q hqprime hdvd
    have hmem : q ∈ L.map fun qe => qe.1 :=
      prime_dvd_prod_pow q hqprime L hprimes (by rw [hprod]; exact hdvd)
    obtain ⟨qe, hqe, hq1⟩ := List.mem_map.mp hmem
    subst hq1
    rw [zmod_pow_natCast a _ P (by omega)]
    refine zmod_natCast_ne_one _ P ?_ (hq qe hqe) hP
    rw [powMod_correct _ _ _ (by omega)]
    exact Nat.mod_lt _ (by omega)

theorem prime_545358713 : Nat.Prime 545358713 := by
  refine prime_of_cert 545358713 5 [(2, 3), (41, 1), (59, 1), (28181, 1)]
    (by norm_num) (by decide) ?_ (by decide) ?_
  · intro qe hqe
    fin_cases hqe
    · exact (by norm_num : Nat.Prime 2)
    · exact (by norm_num : Nat.Prime 41)
    · exact (by norm_num : Nat.Prime 59)
    · exact (by norm_num : Nat.Prime 28181)
  · intro qe hqe
    fin_cases hqe <;> decide

theorem prime_1627771 : Nat.Prime 1627771 := by
  refine prime_of_cert 1627771 3 [(2, 1), (3, 1), (5, 1), (29, 1), (1871, 1)]
    (by norm_num) (by decide) ?_ (by decide) ?_
  · intro qe hqe
    fin_cases hqe
    · exact (by norm_num : Nat.Prime 2)
    · exact (by norm_num : Nat.Prime 3)
    · exact (by norm_num : Nat.Prime 5)
    · exact (by norm_num : Nat.Prime 29)
    · exact (by norm_num : Nat.Prime 1871)
  · intro qe hqe
    fin_cases hqe <;> decide

theorem prime_4681609 : Nat.Prime 4681609 := by
  refine prime_of_cert 4681609 23 [(2, 3), (3, 1), (97, 1), (2011, 1)]
    (by norm_num) (by decide) ?_ (by decide) ?_
  · intro qe hqe
    fin_cases hqe
    · exact (by norm_num : Nat.Prime 2)
    · exact (by norm_num : Nat.Prime 3)
    · exact (by norm_num : Nat.Prime 97)
    · exact (by norm_num : Nat.Prime 2011)
  · intro qe hqe
    fin_cases hqe <;> decide

theorem prime_44706919 : Nat.Prime 44706919 := by
  refine prime_of_cert 44706919 6 [(2, 1), (3, 1), (797, 1), (9349, 1)]
    (by norm_num) (by decide) ?_ (by decide) ?_
  · intro qe hqe
    fin_cases hqe
    · exact (by norm_num : Nat.Prime 2)
    · exact (by norm_num : Nat.Prime 3)
    · exact (by norm_num : Nat.Prime 797)
    · exact (by norm_num : Nat.Prime 9349)
  · intro qe hqe
    fin_cases hqe <;> decide

theorem prime_297159362677 : Nat.Prime 297159362677 := by
  refine prime_of_cert 297159362677 2 [(2, 2), (3, 2), (11, 1), (461, 1), (1627771, 1)]
    (by norm_num) (by decide) ?_ (by decide) ?_
  · intro qe hqe
    fin_cases hqe
    · exact (by norm_num : Nat.Prime 2)
    · exact (by norm_num : Nat.Prime 3)
    · exact (by norm_num : Nat.Prime 11)
    · exact (by norm_num : Nat.Prime 461)
    · exact prime_1627771
  · intro qe hqe
    fin_cases hqe <;> decide

theorem prime_107361793816595537 : Nat.Prime 107361793816595537 := by
  refine prime_of_cert 107361793816595537 3 [(2, 4), (16699, 1), (85831, 1), (4681609, 1)]
    (by norm_num) (by decide) ?_ (by decide) ?_
  · intro qe hqe
    fin_cases hqe
    · exact (by norm_num : Nat.Prime 2)
    · exact (by norm_num : Nat.Prime 16699)
    · exact (by norm_num : Nat.Prime 85831)
    · exact prime_4681609
  · intro qe hqe
    fin_cases hqe <;> decide

theorem prime_174723607534414371449 : Nat.Prime 174723607534414371449 := by
  refine prime_of_cert 174723607534414371449 3 [(2, 3), (17, 1), (59, 1), (4051, 1), (120233, 1), (44706919, 1)]
    (by norm_num) (by decide) ?_ (by decide) ?_
  · intro qe hqe
    fin_cases hqe
    · exact (by norm_num : Nat.Prime 2)
    · exact (by norm_num : Nat.Prime 17)
    · exact (by norm_num : Nat.Prime 59)
    · exact (by norm_num : Nat.Prime 4051)
    · exact (by norm_num : Nat.Prime 120233)
    · exact prime_44706919
  · intro qe hqe
    fin_cases hqe <;> decide

theorem prime_29047611873442575647497758179 : Nat.Prime 29047611873442575647497758179 := by
  refine prime_of_cert 29047611873442575647497758179 2 [(2, 1), (293, 1), (305873, 1), (545358713, 1), (297159362677, 1)]
    (by norm_num) (by decide) ?_ (by decide) ?_
  · intro qe hqe
    fin_cases hqe
    · exact (by norm_num : Nat.Prime 2)
    · exact (by norm_num : Nat.Prime 293)
    · exact (by norm_num : Nat.Prime 305873)
    · exact prime_545358713
    · exact prime_297159362677
  · intro qe hqe
    fin_cases hqe <;> decide

theorem prime_341948486974166000522343609283189 : Nat.Prime 341948486974166000522343609283189 := by
  refine prime_of_cert 341948486974166000522343609283189 2 [(2, 2), (3, 3), (109, 1), (29047611873442575647497758179, 1)]
    (by norm_num) (by decide) ?_ (by decide) ?_
  · intro qe hqe
    fin_cases hqe
    · exact (by norm_num : Nat.Prime 2)
    · exact (by norm_num : Nat.Prime 3)
    · exact (by norm_num : Nat.Prime 109)
    · exact prime_29047611873442575647497758179
  · intro qe hqe
    fin_cases hqe <;> decide

theorem prime_secpN_lit : Nat.Prime 115792089237316195423570985008687907852837564279074904382605163141518161494337 := by
  refine prime_of_cert 115792089237316195423570985008687907852837564279074904382605163141518161494337 7 [(2, 6), (3, 1), (149, 1), (631, 1), (107361793816595537, 1), (174723607534414371449, 1), (341948486974166000522343609283189, 1)]
    (by norm_num) (by decide) ?_ (by decide) ?_
  · intro qe hqe
    fin_cases hqe
    · exact (by norm_num : Nat.Prime 2)
    · exact (by norm_num : Nat.Prime 3)
    · exact (by norm_num : Nat.Prime 149)
    · exact (by norm_num : Nat.Prime 631)
    · exact prime_107361793816595537
    · exact prime_174723607534414371449
    · exact prime_341948486974166000522343609283189
  · intro qe hqe
    fin_cases hqe <;> decide

/-- The secp256k1 group order is prime. -/
theorem prime_secpN : Nat.Prime secpN :=
  prime_secpN_lit

instance : Fact (Nat.Prime secpN) :=
  ⟨prime_secpN⟩

theorem prime_13331831 : Nat.Prime 13331831 := by
  refine prime_of_cert 13331831 13 [(2, 1), (5, 1), (971, 1), (1373, 1)]
    (by norm_num) (by decide) ?_ (by decide) ?_
  · intro qe hqe
    fin_cases hqe
    · exact (by norm_num : Nat.Prime 2)
    · exact (by norm_num : Nat.Prime 5)
    · exact (by norm_num : Nat.Prime 971)
    · exact (by norm_num : Nat.Prime 1373)
  · intro qe hqe
    fin_cases hqe <;> decide

theorem prime_173378833005251801 : Nat.Prime 173378833005251801 := by
  refine prime_of_cert 173378833005251801 6 [(2, 3), (5, 2), (2621, 1), (24809, 1), (13331831, 1)]
    (by norm_num) (by decide) ?_ (by decide) ?_
  · intro qe hqe
    fin_cases hqe
    · exact (by norm_num : Nat.Prime 2)
    · exact (by norm_num : Nat.Prime 5)
    · exact (by norm_num : Nat.Prime 2621)
    · exact (by norm_num : Nat.Prime 24809)
    · exact prime_13331831
  · intro qe hqe
    fin_cases hqe <;> decide

theorem prime_22149492674086928081353 : Nat.Prime 22149492674086928081353 := by
  refine prime_of_cert 22149492674086928081353 5 [(2, 3), (3, 1), (5323, 1), (173378833005251801, 1)]
    (by norm_num) (by decide) ?_ (by decide) ?_
  · intro qe hqe
    fin_cases hqe
    · exact (by norm_num : Nat.Prime 2)
    · exact (by norm_num : Nat.Prime 3)
    · exact (by norm_num : Nat.Prime 5323)
    · exact prime_173378833005251801
  · intro qe hqe
    fin_cases hqe <;> decide

theorem prime_132896956044521568488119 : Nat.Prime 132896956044521568488119 := by
  refine prime_of_cert 132896956044521568488119 6 [(2, 1), (3, 1), (22149492674086928081353, 1)]
    (by norm_num) (by decide) ?_ (by decide) ?_
  · intro qe hqe
    fin_cases hqe
    · exact (by norm_num : Nat.Prime 2)
    · exact (by norm_num : Nat.Prime 3)
    · exact prime_22149492674086928081353
  · intro qe hqe
    fin_cases hqe <;> decide

theorem prime_1206781 : Nat.Prime 1206781 := by
  refine prime_of_cert 1206781 10 [(2, 2), (3, 1), (5, 1), (20113, 1)]
    (by norm_num) (by decide) ?_ (by decide) ?_
  · intro qe hqe
    fin_cases hqe
    · exact (by norm_num : Nat.Prime 2)
    · exact (by norm_num : Nat.Prime 3)
    · exact (by norm_num : Nat.Prime 5)
    · exact (by norm_num : Nat.Prime 20113)
  · intro qe hqe
    fin_cases hqe <;> decide

theorem prime_7240687 : Nat.Prime 7240687 := by
  refine prime_of_cert 7240687 3 [(2, 1), (3, 1), (1206781, 1)]
    (by norm_num) (by decide) ?_ (by decide) ?_
  · intro qe hqe
    fin_cases hqe
    · exact (by norm_num : Nat.Prime 2)
    · exact (by norm_num : Nat.Prime 3)
    · exact prime_1206781
  · intro qe hqe
    fin_cases hqe <;> decide

theorem prime_107590001 : Nat.Prime 107590001 := by
  refine prime_of_cert 107590001 3 [(2, 4), (5, 4), (7, 1), (29, 1), (53, 1)]
    (by norm_num) (by decide) ?_ (by decide) ?_
  · intro qe hqe
    fin_cases hqe
    · exact (by norm_num : Nat.Prime 2)
    · exact (by norm_num : Nat.Prime 5)
    · exact (by norm_num : Nat.Prime 7)
    · exact (by norm_num : Nat.Prime 29)
    · exact (by norm_num : Nat.Prime 53)
  · intro qe hqe
    fin_cases hqe <;> decide

theorem prime_255515944373312847190720520512484175977 : Nat.Prime 255515944373312847190720520512484175977 := by
  refine prime_of_cert 255515944373312847190720520512484175977 3 [(2, 3), (7, 2), (11, 1), (1627, 1), (2657, 1), (4423, 1), (41201, 1), (96557, 1), (7240687, 1), (107590001, 1)]
    (by norm_num) (by decide) ?_ (by decide) ?_
  · intro qe hqe
    fin_cases hqe
    · exact (by norm_num : Nat.Prime 2)
    · exact (by norm_num : Nat.Prime 7)
    · exact (by norm_num : Nat.Prime 11)
    · exact (by norm_num : Nat.Prime 1627)
    · exact (by norm_num : Nat.Prime 2657)
    · exact (by norm_num : Nat.Prime 4423)
    · exact (by norm_num : Nat.Prime 41201)
    · exact (by norm_num : Nat.Prime 96557)
    · exact prime_7240687
    · exact prime_107590001
  · intro qe hqe
    fin_cases hqe <;> decide

theorem prime_205115282021455665897114700593932402728804164701536103180137503955397371 : Nat.Prime 205115282021455665897114700593932402728804164701536103180137503955397371 := by
  refine prime_of_cert 205115282021455665897114700593932402728804164701536103180137503955397371 10 [(2, 1), (3, 1), (5, 1), (29, 2), (31, 1), (7723, 1), (132896956044521568488119, 1), (255515944373312847190720520512484175977, 1)]
    (by norm_num) (by decide) ?_ (by decide) ?_
  · intro qe hqe
    fin_cases hqe
    · exact (by norm_num : Nat.Prime 2)
    · exact (by norm_num : Nat.Prime 3)
    · exact (by norm_num : Nat.Prime 5)
    · exact (by norm_num : Nat.Prime 29)
    · exact (by norm_num : Nat.Prime 31)
    · exact (by norm_num : Nat.Prime 7723)
    · exact prime_132896956044521568488119
    · exact prime_255515944373312847190720520512484175977
  · intro qe hqe
    fin_cases hqe <;> decide

theorem prime_115792089237316195423570985008687907853269984665640564039457584007908834671663 : Nat.Prime 115792089237316195423570985008687907853269984665640564039457584007908834671663 := by
  refine prime_of_cert 115792089237316195423570985008687907853269984665640564039457584007908834671663 3 [(2, 1), (3, 1), (7, 1), (13441, 1), (205115282021455665897114700593932402728804164701536103180137503955397371, 1)]
    (by norm_num) (by decide) ?_ (by decide) ?_
  · intro qe hqe
    fin_cases hqe
    · exact (by norm_num : Nat.Prime 2)
    · exact (by norm_num : Nat.Prime 3)
    · exact (by norm_num : Nat.Prime 7)
    · exact (by norm_num : Nat.Prime 13441)
    · exact prime_205115282021455665897114700593932402728804164701536103180137503955397371
  · intro qe hqe
    fin_cases hqe <;> decide
/-- The secp256k1 field prime is prime, by the same Pratt-certificate
construction. -/
theorem prime_secpP : Nat.Prime secpP :=
  prime_115792089237316195423570985008687907853269984665640564039457584007908834671663

instance : Fact (Nat.Prime secpP) :=
  ⟨prime_secpP⟩


set_option maxHeartbeats 4000000 in
/-- The base point has order dividing `n`, by direct kernel computation of
the double-and-add ladder. -/
theorem psmul_secpN_pG : psmul secpN pG = none := by
  decide

/-! ## The secp256k1 curve over `ZMod secpP`

The executable `ECPoint` arithmetic above is spec-modelled library code;
to prove the recovery property we relate it to Mathlib's nonsingular
points on the Weierstrass curve `y² = x³ + 7`, whose group law is proved
in Mathlib.  The field structure on `ZMod secpP` needs the primality of
`secpP`, which is certified below. -/

open WeierstrassCurve.Affine in
/-- The short Weierstrass curve `y² = x³ + 7` over the secp256k1 field. -/
def secpW : WeierstrassCurve.Affine (ZMod secpP) :=
  { a₁ := 0, a₂ := 0, a₃ := 0, a₄ := 0, a₆ := 7 }

instance : NeZero secpP :=
  ⟨by decide⟩

theorem secpP_odd_prime_facts : 2 < secpP ∧ secpN < secpP ∧ secpP < 2 * secpN := by
  refine ⟨by decide, by decide, by decide⟩

/-- The base point coordinates satisfy the curve equation and the partial
derivative condition, so `G` is a nonsingular point. -/
theorem secpG_nonsingular :
    secpW.Nonsingular (secpGx : ZMod secpP) (secpGy : ZMod secpP) := by
  rw [WeierstrassCurve.Affine.nonsingular_iff, WeierstrassCurve.Affine.equation_iff]
  refine ⟨by decide, Or.inr (by decide)⟩

/-- The Mathlib-side base point. -/
def secpGpt : secpW.Point :=
  .some secpG_nonsingular

/-- An executable affine point represents a Mathlib nonsingular point when
the coordinates are reduced and cast to it; `none` represents the point at
infinity. -/
def Represents : ECPoint → secpW.Point → Prop
  | none, P' => P' = 0
  | some (x, y), P' =>
    x < secpP ∧ y < secpP ∧
      ∃ h : secpW.Nonsingular (x : ZMod secpP) (y : ZMod secpP),
        P' = .some h

theorem represents_pG : Represents pG secpGpt :=
  ⟨by decide, by decide, secpG_nonsingular, rfl⟩

theorem point_some_congr {x₁ y₁ x₂ y₂ : ZMod secpP}
    (h : secpW.Nonsingular x₂ y₂) (hx : x₁ = x₂) (hy : y₁ = y₂) :
    ∃ h' : secpW.Nonsingular x₁ y₁,
      WeierstrassCurve.Affine.Point.some h = .some h' := by
  subst hx
  subst hy
  exact ⟨h, rfl⟩

theorem zmod_p_cast_inj {a b : Nat} (ha : a < secpP) (hb : b < secpP)
    (h : ((a : Nat) : ZMod secpP) = b) : a = b := by
  have := congrArg ZMod.val h
  rwa [ZMod.val_cast_of_lt ha, ZMod.val_cast_of_lt hb] at this

theorem zmod_p_cast_ne_zero {a : Nat} (ha : a < secpP) (h0 : a ≠ 0) :
    ((a : Nat) : ZMod secpP) ≠ 0 := by
  intro h
  exact h0 (zmod_p_cast_inj ha (by decide) (by simpa using h))

theorem zmod_p_cast_sub (b : Nat) (hb : b ≤ secpP) :
    ((secpP - b : Nat) : ZMod secpP) = -(b : ZMod secpP) := by
  rw [Nat.cast_sub hb, ZMod.natCast_self, zero_sub]


theorem two_zmod_p_ne_zero : (2 : ZMod secpP) ≠ 0 := by
  decide

section CurveGroup

open WeierstrassCurve.Affine

theorem invMod_p_cast (a : Nat) (ha : ((a : Nat) : ZMod secpP) ≠ 0) :
    ((invMod a secpP : Nat) : ZMod secpP) = ((a : Nat) : ZMod secpP)⁻¹ := by
  unfold invMod
  rw [← zmod_pow_natCast a (secpP - 2) secpP (by decide)]
  have h1 := ZMod.pow_card_sub_one_eq_one ha
  have hexp : secpP - 2 + 1 = secpP - 1 := by decide
  have h2 : ((a : Nat) : ZMod secpP) ^ (secpP - 2) * ((a : Nat) : ZMod secpP) = 1 := by
    rw [← pow_succ, hexp, h1]
  exact eq_inv_of_mul_eq_one_left h2

theorem pDouble_represents {P : ECPoint} {P' : secpW.Point}
    (h : Represents P P') : Represents (pDouble P) (P' + P') := by
  match P with
  | none =>
    rw [show P' = 0 from h]
    show Represents none (0 + 0)
    rw [add_zero]
    rfl
  | some (x, y) =>
    obtain ⟨hxlt, hylt, hns, rfl⟩ := h
    by_cases hy0 : y = 0
    · subst hy0
      have hyeq : ((0 : Nat) : ZMod secpP) = secpW.negY (x : ZMod secpP) ((0 : Nat) : ZMod secpP) := by
        simp [negY, secpW]
      rw [Point.add_of_Y_eq rfl hyeq]
      show Represents (pDouble (some (x, 0))) 0
      simp [pDouble, Represents]
    · have hycast : ((y : Nat) : ZMod secpP) ≠ 0 := zmod_p_cast_ne_zero hylt hy0
      have hyne : ((y : Nat) : ZMod secpP) ≠ secpW.negY (x : ZMod secpP) (y : ZMod secpP) := by
        simp only [negY]
        intro heq
        apply hycast
        have h2y : ((y : Nat) : ZMod secpP) + ((y : Nat) : ZMod secpP) = 0 := by
          have ha1 : secpW.a₁ = 0 := rfl
          have ha3 : secpW.a₃ = 0 := rfl
          rw [ha1, ha3] at heq
          linear_combination heq
        have := mul_eq_zero.mp (show (2 : ZMod secpP) * ((y : Nat) : ZMod secpP) = 0 by
          rw [two_mul]; exact h2y)
        exact this.resolve_left two_zmod_p_ne_zero
      rw [pDouble, if_neg hy0]
      rw [Point.add_self_of_Y_ne hyne]
      refine ⟨Nat.mod_lt _ (by decide), Nat.mod_lt _ (by decide), ?_⟩
      have hden : ((2 * y % secpP : Nat) : ZMod secpP) ≠ 0 := by
        rw [ZMod.natCast_mod, Nat.cast_mul]
        exact mul_ne_zero (by exact_mod_cast two_zmod_p_ne_zero) hycast
      have hslope : secpW.slope (x : ZMod secpP) (x : ZMod secpP) (y : ZMod secpP) (y : ZMod secpP)
          = 3 * ((x : Nat) : ZMod secpP) ^ 2 / (2 * ((y : Nat) : ZMod secpP)) := by
        rw [slope_of_Y_ne rfl hyne]
        simp only [negY, secpW]
        ring_nf
      have hlcast : ((3 * x * x % secpP * invMod (2 * y % secpP) secpP % secpP : Nat) : ZMod secpP)
          = secpW.slope (x : ZMod secpP) (x : ZMod secpP) (y : ZMod secpP) (y : ZMod secpP) := by
        rw [ZMod.natCast_mod, Nat.cast_mul, ZMod.natCast_mod, invMod_p_cast _ hden,
          ZMod.natCast_mod, hslope]
        push_cast
        field_simp
        ring
      set l := 3 * x * x % secpP * invMod (2 * y % secpP) secpP % secpP with hldef
      set xr := (l * l + (secpP - x % secpP) + (secpP - x % secpP)) % secpP with hxrdef
      set yr := (l * (x + (secpP - xr)) + (secpP - y % secpP)) % secpP with hyrdef
      have hxrlt : xr < secpP := Nat.mod_lt _ (by decide)
      have e1 : ((xr : Nat) : ZMod secpP)
          = secpW.addX (x : ZMod secpP) (x : ZMod secpP)
              (secpW.slope (x : ZMod secpP) (x : ZMod secpP) (y : ZMod secpP) (y : ZMod secpP)) := by
        rw [hxrdef, Nat.mod_eq_of_lt hxlt, ZMod.natCast_mod, Nat.cast_add, Nat.cast_add,
          Nat.cast_mul, zmod_p_cast_sub x hxlt.le, hlcast, addX]
        show _ = _ ^ 2 + secpW.a₁ * _ - secpW.a₂ - _ - _
        rw [show secpW.a₁ = 0 from rfl, show secpW.a₂ = 0 from rfl]
        ring
      have e2 : ((yr : Nat) : ZMod secpP)
          = secpW.addY (x : ZMod secpP) (x : ZMod secpP) (y : ZMod secpP)
              (secpW.slope (x : ZMod secpP) (x : ZMod secpP) (y : ZMod secpP) (y : ZMod secpP)) := by
        rw [hyrdef, Nat.mod_eq_of_lt hylt, ZMod.natCast_mod, Nat.cast_add, Nat.cast_mul,
          Nat.cast_add, zmod_p_cast_sub xr hxrlt.le, zmod_p_cast_sub y hylt.le, hlcast, e1,
          addY, negAddY, negY]
        rw [show secpW.a₁ = 0 from rfl, show secpW.a₃ = 0 from rfl]
        ring
      exact point_some_congr _ e1 e2

theorem zmod_p_add_cast_zero {a b : Nat} (h : (a + b) % secpP = 0) :
    ((a : Nat) : ZMod secpP) = -((b : Nat) : ZMod secpP) := by
  have hc : (((a + b) % secpP : Nat) : ZMod secpP) = 0 := by rw [h]; rfl
  rw [ZMod.natCast_mod, Nat.cast_add] at hc
  linear_combination hc

theorem zmod_p_add_cast_ne_zero {a b : Nat} (h : (a + b) % secpP ≠ 0) :
    ((a : Nat) : ZMod secpP) ≠ -((b : Nat) : ZMod secpP) := by
  intro heq
  apply h
  have hc : (((a + b) : Nat) : ZMod secpP) = 0 := by
    rw [Nat.cast_add]
    linear_combination heq
  rw [ZMod.natCast_zmod_eq_zero_iff_dvd] at hc
  rcases hc with ⟨c, hc⟩
  rw [hc]
  exact Nat.mul_mod_right _ _

theorem pAdd_represents {P Q : ECPoint} {P' Q' : secpW.Point}
    (hP : Represents P P') (hQ : Represents Q Q') :
    Represents (pAdd P Q) (P' + Q') := by
  match P, Q with
  | none, Q =>
    rw [show P' = 0 from hP, zero_add]
    match Q, hQ with
    | none, hQ => exact hQ
    | some (x, y), hQ => exact hQ
  | some (x₁, y₁), none =>
    rw [show Q' = 0 from hQ, add_zero]
    exact hP
  | some (x₁, y₁), some (x₂, y₂) =>
    obtain ⟨hx₁lt, hy₁lt, hns₁, rfl⟩ := hP
    obtain ⟨hx₂lt, hy₂lt, hns₂, rfl⟩ := hQ
    rw [pAdd]
    by_cases hxeq : x₁ % secpP = x₂ % secpP
    · rw [Nat.mod_eq_of_lt hx₁lt, Nat.mod_eq_of_lt hx₂lt] at hxeq
      subst hxeq
      rw [if_pos rfl]
      by_cases hyz : (y₁ + y₂) % secpP = 0
      · rw [if_pos hyz]
        have hy : ((y₁ : Nat) : ZMod secpP)
            = secpW.negY ((x₁ : Nat) : ZMod secpP) ((y₂ : Nat) : ZMod secpP) := by
          rw [negY, show secpW.a₁ = 0 from rfl, show secpW.a₃ = 0 from rfl]
          rw [zmod_p_add_cast_zero hyz]
          ring
        rw [Point.add_of_Y_eq rfl hy]
        rfl
      · rw [if_neg hyz]
        have hyne : ((y₁ : Nat) : ZMod secpP)
            ≠ secpW.negY ((x₁ : Nat) : ZMod secpP) ((y₂ : Nat) : ZMod secpP) := by
          rw [negY, show secpW.a₁ = 0 from rfl, show secpW.a₃ = 0 from rfl]
          intro heq
          exact zmod_p_add_cast_ne_zero hyz (by linear_combination heq)
        have hy12 : y₁ = y₂ := by
          rcases Y_eq_of_X_eq hns₁.1 hns₂.1 rfl with h | h
          · exact zmod_p_cast_inj hy₁lt hy₂lt h
          · exact absurd h hyne
        subst hy12
        exact pDouble_represents ⟨hx₁lt, hy₁lt, hns₁, rfl⟩
    · rw [if_neg hxeq]
      rw [Nat.mod_eq_of_lt hx₁lt, Nat.mod_eq_of_lt hx₂lt] at hxeq
      have hxne : ((x₁ : Nat) : ZMod secpP) ≠ ((x₂ : Nat) : ZMod secpP) := fun h =>
        hxeq (zmod_p_cast_inj hx₁lt hx₂lt h)
      rw [Point.add_of_X_ne hxne]
      refine ⟨Nat.mod_lt _ (by decide), Nat.mod_lt _ (by decide), ?_⟩
      have hdiffne : (((x₂ + (secpP - x₁ % secpP)) % secpP : Nat) : ZMod secpP) ≠ 0 := by
        rw [Nat.mod_eq_of_lt hx₁lt, ZMod.natCast_mod, Nat.cast_add,
          zmod_p_cast_sub x₁ hx₁lt.le]
        intro h
        apply hxne
        linear_combination -h
      have hslope : secpW.slope ((x₁ : Nat) : ZMod secpP) ((x₂ : Nat) : ZMod secpP)
            ((y₁ : Nat) : ZMod secpP) ((y₂ : Nat) : ZMod secpP)
          = (((y₁ : Nat) : ZMod secpP) - ((y₂ : Nat) : ZMod secpP))
            / (((x₁ : Nat) : ZMod secpP) - ((x₂ : Nat) : ZMod secpP)) :=
        slope_of_X_ne hxne
      set l := (y₂ + (secpP - y₁ % secpP))
        * invMod ((x₂ + (secpP - x₁ % secpP)) % secpP) secpP % secpP with hldef
      have hlcast : ((l : Nat) : ZMod secpP)
          = secpW.slope ((x₁ : Nat) : ZMod secpP) ((x₂ : Nat) : ZMod secpP)
              ((y₁ : Nat) : ZMod secpP) ((y₂ : Nat) : ZMod secpP) := by
        rw [hldef, ZMod.natCast_mod, Nat.cast_mul, invMod_p_cast _ hdiffne, Nat.cast_add,
          Nat.mod_eq_of_lt hy₁lt, zmod_p_cast_sub y₁ hy₁lt.le, ZMod.natCast_mod,
          Nat.cast_add, Nat.mod_eq_of_lt hx₁lt, zmod_p_cast_sub x₁ hx₁lt.le, hslope]
        rw [div_eq_mul_inv]
        have ha : ((y₂ : Nat) : ZMod secpP) + -((y₁ : Nat) : ZMod secpP)
            = -(((y₁ : Nat) : ZMod secpP) - ((y₂ : Nat) : ZMod secpP)) := by ring
        have hb : ((x₂ : Nat) : ZMod secpP) + -((x₁ : Nat) : ZMod secpP)
            = -(((x₁ : Nat) : ZMod secpP) - ((x₂ : Nat) : ZMod secpP)) := by ring
        rw [ha, hb, inv_neg, neg_mul_neg]
      set xr := (l * l + (secpP - x₁ % secpP) + (secpP - x₂ % secpP)) % secpP with hxrdef
      set yr := (l * (x₁ + (secpP - xr)) + (secpP - y₁ % secpP)) % secpP with hyrdef
      have hxrlt : xr < secpP := Nat.mod_lt _ (by decide)
      have e1 : ((xr : Nat) : ZMod secpP)
          = secpW.addX ((x₁ : Nat) : ZMod secpP) ((x₂ : Nat) : ZMod secpP)
              (secpW.slope ((x₁ : Nat) : ZMod secpP) ((x₂ : Nat) : ZMod secpP)
                ((y₁ : Nat) : ZMod secpP) ((y₂ : Nat) : ZMod secpP)) := by
        rw [hxrdef, Nat.mod_eq_of_lt hx₁lt, Nat.mod_eq_of_lt hx₂lt, ZMod.natCast_mod,
          Nat.cast_add, Nat.cast_add, Nat.cast_mul, zmod_p_cast_sub x₁ hx₁lt.le,
          zmod_p_cast_sub x₂ hx₂lt.le, hlcast, addX]
        rw [show secpW.a₁ = 0 from rfl, show secpW.a₂ = 0 from rfl]
        ring
      have e2 : ((yr : Nat) : ZMod secpP)
          = secpW.addY ((x₁ : Nat) : ZMod secpP) ((x₂ : Nat) : ZMod secpP)
              ((y₁ : Nat) : ZMod secpP)
              (secpW.slope ((x₁ : Nat) : ZMod secpP) ((x₂ : Nat) : ZMod secpP)
                ((y₁ : Nat) : ZMod secpP) ((y₂ : Nat) : ZMod secpP)) := by
        rw [hyrdef, Nat.mod_eq_of_lt hy₁lt, ZMod.natCast_mod, Nat.cast_add, Nat.cast_mul,
          Nat.cast_add, zmod_p_cast_sub xr hxrlt.le, zmod_p_cast_sub y₁ hy₁lt.le, hlcast, e1,
          addY, negAddY, negY]
        rw [show secpW.a₁ = 0 from rfl, show secpW.a₃ = 0 from rfl]
        ring
      exact point_some_congr _ e1 e2

theorem psmulAux_represents : ∀ (fuel k : Nat) {P : ECPoint} {P' : secpW.Point},
    k < 2 ^ fuel → Represents P P' → Represents (psmulAux fuel k P) (k • P') := by
  intro fuel
  induction fuel with
  | zero =>
    intro k P P' hk hP
    have hk0 : k = 0 := by simpa using hk
    subst hk0
    show Represents none ((0 : Nat) • P')
    rw [zero_nsmul]
    rfl
  | succ fuel ih =>
    intro k P P' hk hP
    rw [psmulAux]
    by_cases hk0 : k = 0
    · subst hk0
      rw [if_pos rfl]
      show Represents none ((0 : Nat) • P')
      rw [zero_nsmul]
      rfl
    · rw [if_neg hk0]
      have hk2 : k / 2 < 2 ^ fuel := by
        rw [pow_succ] at hk
        omega
      have hrec := ih (k / 2) hk2 (pDouble_represents hP)
      have h2 : (k / 2) • (P' + P') = (2 * (k / 2)) • P' := by
        rw [← two_nsmul, ← mul_nsmul', Nat.mul_comm]
      by_cases hpar : k % 2 = 1
      · rw [if_pos hpar]
        have hsum := pAdd_represents hrec hP
        have harith : (k / 2) • (P' + P') + P' = k • P' := by
          rw [h2, ← succ_nsmul]
          congr 1
          omega
        rwa [harith] at hsum
      · rw [if_neg hpar]
        have harith : (k / 2) • (P' + P') = k • P' := by
          rw [h2]
          congr 1
          omega
        rwa [harith] at hrec

theorem psmul_represents (k : Nat) {P : ECPoint} {P' : secpW.Point}
    (hP : Represents P P') : Represents (psmul k P) (k • P') :=
  psmulAux_represents (k + 1) k
    (lt_of_lt_of_le (Nat.lt_two_pow k) (Nat.pow_le_pow_right (by omega) (Nat.le_succ k))) hP

set_option maxHeartbeats 4000000 in
set_option linter.constructorNameAsVariable false in
theorem secpN_smul_Gpt : secpN • secpGpt = 0 := by
  have h := psmul_represents secpN represents_pG
  rw [psmul_secpN_pG] at h
  exact h

theorem addOrderOf_Gpt : addOrderOf secpGpt = secpN :=
  addOrderOf_eq_prime secpN_smul_Gpt
    (WeierstrassCurve.Affine.Point.some_ne_zero _)

theorem nsmul_Gpt_eq_zero_iff (k : Nat) : k • secpGpt = 0 ↔ secpN ∣ k := by
  rw [← addOrderOf_dvd_iff_nsmul_eq_zero, addOrderOf_Gpt]

theorem nsmul_Gpt_cancel (a b : Nat) (hba : b ≤ a) :
    a • secpGpt = b • secpGpt ↔ (a - b) • secpGpt = 0 := by
  constructor
  · intro h
    have : (a - b + b) • secpGpt = b • secpGpt := by
      rw [Nat.sub_add_cancel hba]
      exact h
    rw [add_nsmul] at this
    have := add_right_cancel (this.trans (zero_add (b • secpGpt)).symm)
    simpa using this
  · intro h
    have : a • secpGpt = (a - b + b) • secpGpt := by rw [Nat.sub_add_cancel hba]
    rw [this, add_nsmul, h, zero_add]

theorem nsmul_Gpt_eq_iff (a b : Nat) :
    a • secpGpt = b • secpGpt ↔ ((a : Nat) : ZMod secpN) = ((b : Nat) : ZMod secpN) := by
  rcases le_total b a with hba | hab
  · rw [nsmul_Gpt_cancel a b hba, nsmul_Gpt_eq_zero_iff,
      ZMod.natCast_eq_natCast_iff]
    constructor
    · intro h
      exact (Nat.ModEq.symm ((Nat.modEq_iff_dvd' hba).mpr h))
    · intro h
      exact (Nat.modEq_iff_dvd' hba).mp h.symm
  · rw [show (a • secpGpt = b • secpGpt) ↔ (b • secpGpt = a • secpGpt) from
      ⟨Eq.symm, Eq.symm⟩, nsmul_Gpt_cancel b a hab, nsmul_Gpt_eq_zero_iff,
      ZMod.natCast_eq_natCast_iff]
    exact (Nat.modEq_iff_dvd' hab).symm

theorem powMod_lt (b e m : Nat) (hm : 1 < m) : powMod b e m < m := by
  rw [powMod_correct _ _ _ (by omega)]
  exact Nat.mod_lt _ (by omega)

theorem zmod_cast_inj_of_lt (m : Nat) {a b : Nat} (ha : a < m) (hb : b < m)
    (h : ((a : Nat) : ZMod m) = ((b : Nat) : ZMod m)) : a = b := by
  haveI : NeZero m := ⟨by omega⟩
  have := congrArg ZMod.val h
  rwa [ZMod.val_cast_of_lt ha, ZMod.val_cast_of_lt hb] at this

theorem zmod_cast_ne_zero_of_lt (m : Nat) {a : Nat} (ha : a < m) (h0 : a ≠ 0) :
    ((a : Nat) : ZMod m) ≠ 0 := by
  intro h
  refine h0 (zmod_cast_inj_of_lt m ha (by omega) ?_)
  simpa using h

theorem zmod_cast_sub_of_le (m b : Nat) (hb : b ≤ m) :
    ((m - b : Nat) : ZMod m) = -((b : Nat) : ZMod m) := by
  rw [Nat.cast_sub hb, ZMod.natCast_self, zero_sub]

theorem invMod_cast (m : Nat) [Fact (Nat.Prime m)] (a : Nat)
    (ha : ((a : Nat) : ZMod m) ≠ 0) :
    ((invMod a m : Nat) : ZMod m) = ((a : Nat) : ZMod m)⁻¹ := by
  have hm2 : 2 ≤ m := (Fact.out : Nat.Prime m).two_le
  unfold invMod
  rw [← zmod_pow_natCast a (m - 2) m (by omega)]
  have h1 := ZMod.pow_card_sub_one_eq_one ha
  have hexp : m - 2 + 1 = m - 1 := by omega
  refine eq_inv_of_mul_eq_one_left ?_
  calc ((a : Nat) : ZMod m) ^ (m - 2) * ((a : Nat) : ZMod m)
      = ((a : Nat) : ZMod m) ^ (m - 1) := by rw [← pow_succ, hexp]
    _ = 1 := h1

theorem represents_on_curve {x y : Nat} {P' : secpW.Point}
    (h : Represents (some (x, y)) P') :
    ((y : Nat) : ZMod secpP) ^ 2 = ((x : Nat) : ZMod secpP) ^ 3 + 7 := by
  obtain ⟨hx, hy, hns, rfl⟩ := h
  have heq : secpW.Equation ((x : Nat) : ZMod secpP) ((y : Nat) : ZMod secpP) := hns.1
  rw [equation_iff] at heq
  rw [show secpW.a₁ = 0 from rfl, show secpW.a₂ = 0 from rfl,
    show secpW.a₃ = 0 from rfl, show secpW.a₄ = 0 from rfl,
    show secpW.a₆ = 7 from rfl] at heq
  linear_combination heq

theorem represents_neg {x y : Nat} {P' : secpW.Point}
    (h : Represents (some (x, y)) P') (hy0 : y ≠ 0) :
    Represents (some (x, secpP - y)) (-P') := by
  obtain ⟨hx, hyp, hns, rfl⟩ := h
  have hnegY : secpW.negY ((x : Nat) : ZMod secpP) ((y : Nat) : ZMod secpP)
      = (((secpP - y : Nat)) : ZMod secpP) := by
    rw [zmod_cast_sub_of_le secpP y (le_of_lt hyp)]
    simp [negY, secpW]
  have hns' := nonsingular_neg hns
  obtain ⟨h', he⟩ := point_some_congr (nonsingular_neg hns) rfl hnegY.symm
  refine ⟨hx, by omega, h', ?_⟩
  rw [Point.neg_some]
  exact he

theorem represents_inj {A B : ECPoint} {P' : secpW.Point}
    (hA : Represents A P') (hB : Represents B P') : A = B := by
  match A, B, hA, hB with
  | none, none, _, _ => rfl
  | none, some (x, y), hA, hB =>
    obtain ⟨_, _, h, heq⟩ := hB
    rw [hA] at heq
    exact absurd heq.symm (Point.some_ne_zero h)
  | some (x, y), none, hA, hB =>
    obtain ⟨_, _, h, heq⟩ := hA
    rw [hB] at heq
    exact absurd heq.symm (Point.some_ne_zero h)
  | some (x₁, y₁), some (x₂, y₂), hA, hB =>
    obtain ⟨hx1, hy1, h1, he1⟩ := hA
    obtain ⟨hx2, hy2, h2, he2⟩ := hB
    rw [he1] at he2
    have hinj := Point.some.inj he2
    have hxe := zmod_cast_inj_of_lt secpP hx1 hx2 hinj.left
    have hye := zmod_cast_inj_of_lt secpP hy1 hy2 hinj.right
    rw [hxe, hye]

theorem psmul_y_ne_zero {k xR yR : Nat} (hR : psmul k pG = some (xR, yR))
    (h2k : (2 * k) • secpGpt ≠ 0) : yR ≠ 0 := by
  intro h0
  subst h0
  have hrep := psmul_represents k represents_pG
  rw [hR] at hrep
  obtain ⟨hx, hy, hns, heq⟩ := hrep
  have hyeq : ((0 : Nat) : ZMod secpP)
      = secpW.negY ((xR : Nat) : ZMod secpP) ((0 : Nat) : ZMod secpP) := by
    simp [negY, secpW]
  have hzero : k • secpGpt + k • secpGpt = 0 := by
    rw [heq]
    exact Point.add_of_Y_eq rfl hyeq
  exact h2k (by rw [two_mul, add_nsmul]; exact hzero)

theorem recid_xor_one (b par : Nat) (hb : b ≤ 1) (hpar : par ≤ 1) :
    ((2 * b + par) ^^^ 1) / 2 = b ∧ ((2 * b + par) ^^^ 1) % 2 = 1 - par := by
  interval_cases b <;> interval_cases par <;> decide

theorem secpP_sub_parity (y : Nat) (hy0 : 0 < y) (hyp : y < secpP) :
    (secpP - y) % 2 = 1 - y % 2 := by
  have h2 : secpP % 2 = 1 := by decide
  omega

theorem zmod_p_sqrt (t : ZMod secpP) (ht : t ≠ 0) :
    (t ^ 2) ^ ((secpP + 1) / 4) = t ∨ (t ^ 2) ^ ((secpP + 1) / 4) = -t := by
  have h4 : 2 * ((secpP + 1) / 4 * 2) = secpP + 1 := by decide
  have hsplit : secpP + 1 = (secpP - 1) + 2 := by decide
  have hsq : (((t ^ 2) ^ ((secpP + 1) / 4))) ^ 2 = t ^ 2 := by
    rw [← pow_mul, ← pow_mul, h4, hsplit, pow_add,
      ZMod.pow_card_sub_one_eq_one ht, one_mul]
  exact eq_or_eq_neg_of_sq_eq_sq _ _ hsq

theorem ecSign_elim {z d k r s recid : Nat}
    (h : ecSign z d k = some (r, s, recid)) :
    ∃ xR yR,
      psmul k pG = some (xR, yR) ∧
      r = xR % secpN ∧ r ≠ 0 ∧
      invMod k secpN * ((z % secpN + r * d) % secpN) % secpN ≠ 0 ∧
      ((¬ secpN - invMod k secpN * ((z % secpN + r * d) % secpN) % secpN
            < invMod k secpN * ((z % secpN + r * d) % secpN) % secpN
          ∧ s = invMod k secpN * ((z % secpN + r * d) % secpN) % secpN
          ∧ recid = (if secpN ≤ xR then 2 else 0) + yR % 2)
        ∨ (secpN - invMod k secpN * ((z % secpN + r * d) % secpN) % secpN
            < invMod k secpN * ((z % secpN + r * d) % secpN) % secpN
          ∧ s = secpN - invMod k secpN * ((z % secpN + r * d) % secpN) % secpN
          ∧ recid = ((if secpN ≤ xR then 2 else 0) + yR % 2) ^^^ 1)) := by
  rcases hP : psmul k pG with _ | ⟨xR, yR⟩
  · rw [ecSign, hP] at h
    exact absurd h (by simp)
  · simp only [ecSign, hP] at h
    refine ⟨xR, yR, rfl, ?_⟩
    by_cases h1 : xR % secpN = 0
    · rw [if_pos h1] at h
      exact absurd h (by simp)
    · rw [if_neg h1] at h
      by_cases h2 : invMod k secpN * ((z % secpN + xR % secpN * d) % secpN) % secpN = 0
      · rw [if_pos h2] at h
        exact absurd h (by simp)
      · rw [if_neg h2] at h
        by_cases h3 : secpN - invMod k secpN * ((z % secpN + xR % secpN * d) % secpN) % secpN
            < invMod k secpN * ((z % secpN + xR % secpN * d) % secpN) % secpN
        · rw [if_pos h3] at h
          rw [Option.some.injEq, Prod.mk.injEq, Prod.mk.injEq] at h
          obtain ⟨hr, hs, hrec⟩ := h
          subst hr
          subst hs
          subst hrec
          exact ⟨rfl, h1, h2, Or.inr ⟨h3, rfl, rfl⟩⟩
        · rw [if_neg h3] at h
          rw [Option.some.injEq, Prod.mk.injEq, Prod.mk.injEq] at h
          obtain ⟨hr, hs, hrec⟩ := h
          subst hr
          subst hs
          subst hrec
          exact ⟨rfl, h1, h2, Or.inl ⟨h3, rfl, rfl⟩⟩

theorem psmul_coords {k xR yR : Nat} (hR : psmul k pG = some (xR, yR)) :
    xR < secpP ∧ yR < secpP ∧
    ∃ hns : secpW.Nonsingular ((xR : Nat) : ZMod secpP) ((yR : Nat) : ZMod secpP),
      k • secpGpt = Point.some hns := by
  have hrep := psmul_represents k represents_pG
  rw [hR] at hrep
  exact hrep

/-- The nonce-point reconstruction inside `ecRecover`: with a consistent
recovery id, the `x = r + (recid/2)·n` candidate, the Euler square root and
the parity correction rebuild exactly the nonce point (or its negation when
the parity bit was flipped). -/
theorem ecRecover_point (z r s recid xR yR : Nat)
    (hxRp : xR < secpP) (hyRp : yR < secpP) (hyR0 : yR ≠ 0)
    (hnsR : secpW.Nonsingular ((xR : Nat) : ZMod secpP) ((yR : Nat) : ZMod secpP))
    (hr : r = xR % secpN)
    (hdiv : recid / 2 = (if secpN ≤ xR then 1 else 0))
    (hpar : recid % 2 = yR % 2 ∨ recid % 2 = 1 - yR % 2) :
    ecRecover z r s recid
      = pAdd (psmul ((secpN - z % secpN) % secpN * invMod r secpN % secpN) pG)
          (psmul (s * invMod r secpN % secpN)
            (some (xR, if recid % 2 = yR % 2 then yR else secpP - yR))) := by
  have hpn := secpP_odd_prime_facts
  have hx : r + recid / 2 * secpN = xR := by
    rw [hdiv, hr]
    by_cases hxn : secpN ≤ xR
    · rw [if_pos hxn]
      have : xR % secpN = xR - secpN := by
        rw [Nat.mod_eq_sub_mod hxn, Nat.mod_eq_of_lt (by omega)]
      omega
    · rw [if_neg hxn]
      rw [Nat.mod_eq_of_lt (by omega)]
      omega
  have hyRc : ((yR : Nat) : ZMod secpP) ≠ 0 :=
    zmod_p_cast_ne_zero hyRp hyR0
  have hcurve : ((yR : Nat) : ZMod secpP) ^ 2 = ((xR : Nat) : ZMod secpP) ^ 3 + 7 :=
    represents_on_curve ⟨hxRp, hyRp, hnsR, rfl⟩
  simp only [ecRecover]
  rw [hx, if_neg (by omega : ¬ secpP ≤ xR)]
  set ySq := (powMod xR 3 secpP + 7) % secpP with hySqdef
  have hySqlt : ySq < secpP := Nat.mod_lt _ (by decide)
  have hySqcast : ((ySq : Nat) : ZMod secpP) = ((yR : Nat) : ZMod secpP) ^ 2 := by
    rw [hySqdef, ZMod.natCast_mod, Nat.cast_add,
      ← zmod_pow_natCast xR 3 secpP (by decide), hcurve]
    norm_num
  set y₀ := powMod ySq ((secpP + 1) / 4) secpP with hy₀def
  have hy₀lt : y₀ < secpP := powMod_lt _ _ _ (by decide)
  have hy₀cast : ((y₀ : Nat) : ZMod secpP)
      = (((yR : Nat) : ZMod secpP) ^ 2) ^ ((secpP + 1) / 4) := by
    rw [hy₀def, ← zmod_pow_natCast ySq ((secpP + 1) / 4) secpP (by decide), hySqcast]
  have hy₀or := zmod_p_sqrt ((yR : Nat) : ZMod secpP) hyRc
  rw [← hy₀cast] at hy₀or
  have hyy : y₀ * y₀ % secpP = ySq := by
    refine zmod_cast_inj_of_lt secpP (Nat.mod_lt _ (by decide)) hySqlt ?_
    rw [ZMod.natCast_mod, Nat.cast_mul, hySqcast]
    rcases hy₀or with h | h
    · rw [h]; ring
    · rw [h]; ring
  rw [if_neg (not_not_intro hyy)]
  have hy2 : yR % 2 ≤ 1 := by omega
  have hccl : (if y₀ % 2 = recid % 2 then y₀ else (secpP - y₀) % secpP)
      = (if recid % 2 = yR % 2 then yR else secpP - yR) := by
    rcases hy₀or with hcast | hcast
    · have hy₀eq : y₀ = yR := zmod_cast_inj_of_lt secpP hy₀lt hyRp hcast
      rw [hy₀eq]
      rcases hpar with hp | hp
      · rw [if_pos (show yR % 2 = recid % 2 by omega), if_pos hp]
      · rw [if_neg (show ¬ yR % 2 = recid % 2 by omega),
          if_neg (show ¬ recid % 2 = yR % 2 by omega),
          Nat.mod_eq_of_lt (show secpP - yR < secpP by omega)]
    · have hy₀eq : y₀ = secpP - yR := by
        refine zmod_cast_inj_of_lt secpP hy₀lt (by omega) ?_
        rw [hcast, zmod_cast_sub_of_le secpP yR (by omega)]
      rw [hy₀eq]
      have hop : (secpP - yR) % 2 = 1 - yR % 2 :=
        secpP_sub_parity yR (by omega) hyRp
      rcases hpar with hp | hp
      · rw [if_neg (show ¬ (secpP - yR) % 2 = recid % 2 by omega), if_pos hp,
          show secpP - (secpP - yR) = yR by omega,
          Nat.mod_eq_of_lt (show yR < secpP by omega)]
      · rw [if_pos (show (secpP - yR) % 2 = recid % 2 by omega),
          if_neg (show ¬ recid % 2 = yR % 2 by omega)]
  rw [hccl]

/-- ECDSA recovery inverts signing: for a valid private key and nonce,
`ecRecover` on the produced signature returns exactly the public-key
point `d • G`. -/
theorem ecRecover_ecSign (z d k r s recid : Nat)
    (hd0 : 0 < d) (hdn : d < secpN) (hk0 : 0 < k) (hkn : k < secpN)
    (hsig : ecSign z d k = some (r, s, recid)) :
    ecRecover z r s recid = psmul d pG := by
  obtain ⟨xR, yR, hR, hr, hr0, hs₀ne, hcase⟩ := ecSign_elim hsig
  obtain ⟨hxRp, hyRp, hnsR, hRpt⟩ := psmul_coords hR
  have hn2 : ¬ secpN ∣ 2 * k := by
    intro hdvd
    rcases (Nat.Prime.dvd_mul (Fact.out : Nat.Prime secpN)).mp hdvd with h | h
    · exact absurd (Nat.le_of_dvd (by omega) h) (by decide)
    · exact absurd (Nat.le_of_dvd hk0 h) (by omega)
  have h2k : (2 * k) • secpGpt ≠ 0 := fun h =>
    hn2 ((nsmul_Gpt_eq_zero_iff (2 * k)).mp h)
  have hyR0 : yR ≠ 0 := psmul_y_ne_zero hR h2k
  have hrn : r < secpN := by rw [hr]; exact Nat.mod_lt _ (by decide)
  have hrcast : ((r : Nat) : ZMod secpN) ≠ 0 := zmod_cast_ne_zero_of_lt secpN hrn hr0
  have hkcast : ((k : Nat) : ZMod secpN) ≠ 0 :=
    zmod_cast_ne_zero_of_lt secpN hkn (by omega)
  have hrinv := invMod_cast secpN r hrcast
  have hkinv := invMod_cast secpN k hkcast
  have hyle : yR % 2 ≤ 1 := by omega
  have hb2 : (if secpN ≤ xR then 2 else 0) = 2 * (if secpN ≤ xR then 1 else 0) := by
    split_ifs <;> rfl
  have hb1 : (if secpN ≤ xR then 1 else 0) ≤ 1 := by split_ifs <;> omega
  have hrepd : Represents (psmul d pG) (d • secpGpt) := psmul_represents d represents_pG
  have hrepR : Represents (some (xR, yR)) (k • secpGpt) := by
    rw [← hR]; exact psmul_represents k represents_pG
  set s₀ := invMod k secpN * ((z % secpN + r * d) % secpN) % secpN with hs₀def
  have hs₀lt : s₀ < secpN := Nat.mod_lt _ (by decide)
  have hs₀cast : ((s₀ : Nat) : ZMod secpN)
      = (((k : Nat) : ZMod secpN))⁻¹
        * (((z : Nat) : ZMod secpN)
            + ((r : Nat) : ZMod secpN) * ((d : Nat) : ZMod secpN)) := by
    rw [hs₀def, ZMod.natCast_mod, Nat.cast_mul, hkinv, ZMod.natCast_mod,
      Nat.cast_add, ZMod.natCast_mod, Nat.cast_mul]
  set u₁ := (secpN - z % secpN) % secpN * invMod r secpN % secpN with hu₁def
  have hu₁cast : ((u₁ : Nat) : ZMod secpN)
      = -((z : Nat) : ZMod secpN) * (((r : Nat) : ZMod secpN))⁻¹ := by
    rw [hu₁def, ZMod.natCast_mod, Nat.cast_mul, ZMod.natCast_mod,
      zmod_cast_sub_of_le secpN (z % secpN) (le_of_lt (Nat.mod_lt _ (by decide))),
      ZMod.natCast_mod, hrinv]
  rcases hcase with ⟨hflip, hs, hrec⟩ | ⟨hflip, hs, hrec⟩
  · have hdiv : recid / 2 = (if secpN ≤ xR then 1 else 0) := by
      rw [hrec, hb2]; omega
    have hpar : recid % 2 = yR % 2 := by
      rw [hrec, hb2]; omega
    rw [ecRecover_point z r s recid xR yR hxRp hyRp hyR0 hnsR hr hdiv (Or.inl hpar)]
    rw [if_pos hpar]
    set u₂ := s * invMod r secpN % secpN with hu₂def
    have hu₂cast : ((u₂ : Nat) : ZMod secpN)
        = ((s₀ : Nat) : ZMod secpN) * (((r : Nat) : ZMod secpN))⁻¹ := by
      rw [hu₂def, ZMod.natCast_mod, Nat.cast_mul, hrinv, hs]
    have hpt : u₁ • secpGpt + u₂ • (k • secpGpt) = d • secpGpt := by
      rw [← mul_nsmul, ← add_nsmul, nsmul_Gpt_eq_iff]
      push_cast
      rw [hu₁cast, hu₂cast, hs₀cast]
      field_simp
      ring
    have hrepQ := pAdd_represents (psmul_represents u₁ represents_pG)
      (psmul_represents u₂ hrepR)
    rw [hpt] at hrepQ
    exact represents_inj hrepQ hrepd
  · have hxor := recid_xor_one (if secpN ≤ xR then 1 else 0) (yR % 2) hb1 hyle
    have hdiv : recid / 2 = (if secpN ≤ xR then 1 else 0) := by
      rw [hrec, hb2]; exact hxor.1
    have hpar : recid % 2 = 1 - yR % 2 := by
      rw [hrec, hb2]; exact hxor.2
    rw [ecRecover_point z r s recid xR yR hxRp hyRp hyR0 hnsR hr hdiv (Or.inr hpar)]
    rw [if_neg (show ¬ recid % 2 = yR % 2 by omega)]
    set u₂ := s * invMod r secpN % secpN with hu₂def
    have hu₂cast : ((u₂ : Nat) : ZMod secpN)
        = -((s₀ : Nat) : ZMod secpN) * (((r : Nat) : ZMod secpN))⁻¹ := by
      rw [hu₂def, ZMod.natCast_mod, Nat.cast_mul, hrinv, hs,
        zmod_cast_sub_of_le secpN s₀ (by omega)]
    have hrepN : Represents (some (xR, secpP - yR)) (-(k • secpGpt)) :=
      represents_neg hrepR hyR0
    have hpt : u₁ • secpGpt + u₂ • (-(k • secpGpt)) = d • secpGpt := by
      rw [neg_nsmul, ← mul_nsmul, ← sub_eq_add_neg, sub_eq_iff_eq_add, ← add_nsmul,
        nsmul_Gpt_eq_iff]
      push_cast
      rw [hu₁cast, hu₂cast, hs₀cast]
      field_simp
      ring
    have hrepQ := pAdd_represents (psmul_represents u₁ represents_pG)
      (psmul_represents u₂ hrepN)
    rw [hpt] at hrepQ
    exact represents_inj hrepQ hrepd

end CurveGroup

/-! ## RLP decoder (recovery-test collaborator) -/

/-- Modelled from the spec: the item loop of ethers' `decodeRlp`,
restricted to the shape the recovery test consumes — a flat sequence of
byte-string items.  The fuel bounds the number of items; a nested list
byte (`0xc0` and above) is rejected. -/
def rlpDecodeItemsAux : Nat → List Nat → Option (List (List Nat))
  | 0, _ => none
  | _ + 1, [] => some []
  | fuel + 1, c :: rest =>
    if c < 0x80 then
      match rlpDecodeItemsAux fuel rest with
      | some items => some ([c] :: items)
      | none => none
    else if c < 0xb8 then
      if rest.length < c - 0x80 then none
      else
        match rlpDecodeItemsAux fuel (rest.drop (c - 0x80)) with
        | some items => some (rest.take (c - 0x80) :: items)
        | none => none
    else if c < 0xc0 then
      if rest.length < c - 0xb7 then none
      else
        if (rest.drop (c - 0xb7)).length < bytesToNat (rest.take (c - 0xb7)) then none
        else
          match rlpDecodeItemsAux fuel
              ((rest.drop (c - 0xb7)).drop (bytesToNat (rest.take (c - 0xb7)))) with
          | some items =>
            some ((rest.drop (c - 0xb7)).take (bytesToNat (rest.take (c - 0xb7))) :: items)
          | none => none
    else none

/-- Modelled from the spec: ethers' `decodeRlp` on a top-level array of
byte strings, as the recovery test uses it; trailing bytes are rejected. -/
def rlpDecodeList (bytes : List Nat) : Option (List (List Nat)) :=
  match bytes with
  | [] => none
  | c :: rest =>
    if c < 0xc0 then none
    else if c < 0xf8 then
      if rest.length = c - 0xc0 then rlpDecodeItemsAux (rest.length + 1) rest
      else none
    else
      if rest.length < c - 0xf7 then none
      else
        if (rest.drop (c - 0xf7)).length = bytesToNat (rest.take (c - 0xf7))
        then rlpDecodeItemsAux ((rest.drop (c - 0xf7)).length + 1) (rest.drop (c - 0xf7))
        else none

theorem rlpDecodeItemsAux_nil (fuel : Nat) (h : 0 < fuel) :
    rlpDecodeItemsAux fuel [] = some [] := by
  match fuel, h with
  | f + 1, _ => rfl

/-- One byte-string item, decoded off the front of a longer input. -/
theorem rlpDecodeItemsAux_item (x : List Nat) (rest : List Nat) (fuel : Nat)
    (hb : ∀ b ∈ x, b < 256) (hlen : x.length < 2 ^ 64) :
    rlpDecodeItemsAux (fuel + 1) (rlpEncode (.bytes x) ++ rest)
      = match rlpDecodeItemsAux fuel rest with
        | some items => some (x :: items)
        | none => none := by
  rw [rlpEncode_bytes_cases]
  by_cases h1 : x.length = 1 ∧ x.head! < 0x80
  · obtain ⟨b, rfl⟩ := List.length_eq_one.mp h1.1
    have hb0 : b < 0x80 := h1.2
    rw [if_pos h1]
    show rlpDecodeItemsAux (fuel + 1) (b :: rest) = _
    rw [rlpDecodeItemsAux]
    rw [if_pos hb0]
  · rw [if_neg h1]
    by_cases h2 : x.length < 56
    · rw [if_pos h2]
      show rlpDecodeItemsAux (fuel + 1) ((0x80 + x.length) :: (x ++ rest)) = _
      rw [rlpDecodeItemsAux]
      rw [if_neg (by omega), if_pos (by omega)]
      have htk : (x ++ rest).take (0x80 + x.length - 0x80) = x := by
        rw [show 0x80 + x.length - 0x80 = x.length by omega]
        exact List.take_left x rest
      have hdp : (x ++ rest).drop (0x80 + x.length - 0x80) = rest := by
        rw [show 0x80 + x.length - 0x80 = x.length by omega]
        exact List.drop_left x rest
      rw [if_neg (by simp only [List.length_append]; omega), htk, hdp]
    · rw [if_neg h2]
      have hpos : 0 < x.length := by omega
      rw [encodeLength_eq_intToBuffer _ hpos]
      set lb := intToBuffer x.length with hlb
      have hlb1 : 1 ≤ lb.length := by
        have := (intToBuffer_head_pos x.length hpos).1
        cases hcl : lb
        · exact absurd hcl this
        · simp [hcl]
      have hlb8 : lb.length ≤ 8 := by
        refine intToBuffer_length_le 8 x.length ?_ (by omega)
        calc x.length < 2 ^ 64 := hlen
        _ = 16 ^ (2 * 8) := by norm_num
      show rlpDecodeItemsAux (fuel + 1) ((0xb7 + lb.length) :: ((lb ++ x) ++ rest)) = _
      rw [rlpDecodeItemsAux]
      rw [if_neg (by omega), if_neg (by omega), if_pos (by omega)]
      rw [List.append_assoc]
      have htk : (lb ++ (x ++ rest)).take (0xb7 + lb.length - 0xb7) = lb := by
        rw [show 0xb7 + lb.length - 0xb7 = lb.length by omega]
        exact List.take_left lb (x ++ rest)
      have hdp : (lb ++ (x ++ rest)).drop (0xb7 + lb.length - 0xb7) = x ++ rest := by
        rw [show 0xb7 + lb.length - 0xb7 = lb.length by omega]
        exact List.drop_left lb (x ++ rest)
      rw [if_neg (by simp only [List.length_append]; omega)]
      rw [htk, hdp, hlb, bytesToNat_intToBuffer]
      have htk2 : (x ++ rest).take x.length = x := List.take_left x rest
      have hdp2 : (x ++ rest).drop x.length = rest := List.drop_left x rest
      rw [if_neg (by simp), htk2, hdp2]

/-- Decoding the encoding of a flat list of byte strings, followed by any
tail, peels off exactly those byte strings. -/
theorem rlpDecodeItemsAux_encode (l : List (List Nat)) :
    ∀ (tail : List Nat) (fuel : Nat),
    (∀ item ∈ l, ∀ b ∈ item, b < 256) →
    (∀ item ∈ l, item.length < 2 ^ 64) →
    rlpDecodeItemsAux (l.length + fuel) (rlpEncodeList (l.map .bytes) ++ tail)
      = (rlpDecodeItemsAux fuel tail).map (fun items => l ++ items) := by
  induction l with
  | nil =>
    intro tail fuel _ _
    simp only [List.length_nil, Nat.zero_add, List.map_nil]
    show rlpDecodeItemsAux fuel tail = _
    cases rlpDecodeItemsAux fuel tail <;> simp
  | cons x xs ih =>
    intro tail fuel hb hlen
    simp only [List.map_cons, List.length_cons]
    rw [rlpEncodeList, List.append_assoc]
    rw [show xs.length + 1 + fuel = (xs.length + fuel) + 1 by omega]
    rw [rlpDecodeItemsAux_item x _ (xs.length + fuel)
      (hb x (by simp)) (hlen x (by simp))]
    rw [ih tail (fuel) (fun i hi => hb i (by simp [hi])) (fun i hi => hlen i (by simp [hi]))]
    cases rlpDecodeItemsAux fuel tail <;> simp

/-- A byte-string RLP item encodes to at least one byte. -/
theorem rlpEncode_bytes_length_pos (bs : List Nat) :
    1 ≤ (rlpEncode (.bytes bs)).length := by
  rw [rlpEncode_bytes_cases]
  split_ifs with h1 h2
  · omega
  · simp
  · simp

/-- The encoding of a list of byte strings is at least as long as the list. -/
theorem rlpEncodeList_length_ge_items (l : List (List Nat)) :
    l.length ≤ (rlpEncodeList (l.map .bytes)).length := by
  induction l with
  | nil => simp [rlpEncodeList]
  | cons x xs ih =>
    simp only [List.map_cons, List.length_cons]
    rw [rlpEncodeList, List.length_append]
    have := rlpEncode_bytes_length_pos x
    omega

/-- `decodeRlp` inverts the repository's `rlpEncode` on arrays of byte
strings (of non-astronomical sizes). -/
theorem rlpDecodeList_encode (l : List (List Nat))
    (hb : ∀ item ∈ l, ∀ b ∈ item, b < 256)
    (hlen : ∀ item ∈ l, item.length < 2 ^ 64)
    (hpay : (rlpEncodeList (l.map .bytes)).length < 2 ^ 64) :
    rlpDecodeList (rlpEncode (.list (l.map .bytes))) = some l := by
  have hitems := rlpEncodeList_length_ge_items l
  have haux : rlpDecodeItemsAux ((rlpEncodeList (l.map .bytes)).length + 1)
      (rlpEncodeList (l.map .bytes)) = some l := by
    have h1 : (rlpEncodeList (l.map .bytes)).length + 1
        = l.length + ((rlpEncodeList (l.map .bytes)).length + 1 - l.length) := by
      omega
    rw [h1, show rlpEncodeList (l.map .bytes)
        = rlpEncodeList (l.map .bytes) ++ [] from (List.append_nil _).symm]
    rw [rlpDecodeItemsAux_encode l [] _ hb hlen]
    rw [List.append_nil]
    rw [rlpDecodeItemsAux_nil _ (by omega)]
    simp
  rw [rlpEncode_list_cases]
  set payload := rlpEncodeList (l.map .bytes) with hpaydef
  by_cases hshort : payload.length < 56
  · rw [if_pos hshort]
    show rlpDecodeList ((0xc0 + payload.length) :: payload) = some l
    rw [rlpDecodeList]
    rw [if_neg (by omega), if_pos (by omega),
      if_pos (by omega : payload.length = 0xc0 + payload.length - 0xc0)]
    exact haux
  · rw [if_neg hshort]
    have hpos : 0 < payload.length := by omega
    rw [encodeLength_eq_intToBuffer _ hpos]
    set lb := intToBuffer payload.length with hlb
    have hlb1 : 1 ≤ lb.length := by
      have := (intToBuffer_head_pos payload.length hpos).1
      cases hcl : lb
      · exact absurd hcl this
      · simp [hcl]
    have hlb8 : lb.length ≤ 8 := by
      refine intToBuffer_length_le 8 payload.length ?_ (by omega)
      calc payload.length < 2 ^ 64 := hpay
      _ = 16 ^ (2 * 8) := by norm_num
    show rlpDecodeList ((0xf7 + lb.length) :: (lb ++ payload)) = some l
    rw [rlpDecodeList]
    rw [if_neg (by omega), if_neg (by omega), if_neg (by simp only [List.length_append]; omega)]
    have htk : (lb ++ payload).take (0xf7 + lb.length - 0xf7) = lb := by
      rw [show 0xf7 + lb.length - 0xf7 = lb.length by omega]
      exact List.take_left lb payload
    have hdp : (lb ++ payload).drop (0xf7 + lb.length - 0xf7) = payload := by
      rw [show 0xf7 + lb.length - 0xf7 = lb.length by omega]
      exact List.drop_left lb payload
    rw [htk, hdp, hlb, bytesToNat_intToBuffer, if_pos rfl]
    exact haux

theorem bytesToNat_append_singleton (a : List Nat) (b : Nat) :
    bytesToNat (a ++ [b]) = bytesToNat a * 256 + b := by
  unfold bytesToNat
  rw [List.foldl_append]
  rfl

/-- Big-endian bytes of the low `8 * m` bits of `v`, decoded back. -/
theorem bytesToNat_rangeBE (m : Nat) : ∀ v : Nat,
    bytesToNat ((List.range m).map fun i => v >>> (8 * (m - 1 - i)) % 256)
      = v % 2 ^ (8 * m) := by
  induction m with
  | zero =>
    intro v
    simp [bytesToNat]
    omega
  | succ m ih =>
    intro v
    rw [List.range_succ, List.map_append]
    have hlast : ((fun i => v >>> (8 * (m + 1 - 1 - i)) % 256) m) = v % 256 := by
      simp only [show m + 1 - 1 - m = 0 by omega, Nat.mul_zero, Nat.shiftRight_zero]
    have hfront : ((List.range m).map fun i => v >>> (8 * (m + 1 - 1 - i)) % 256)
        = (List.range m).map fun i => (v >>> 8) >>> (8 * (m - 1 - i)) % 256 := by
      apply List.map_congr_left
      intro i hi
      have him : i < m := List.mem_range.mp hi
      rw [← Nat.shiftRight_add]
      congr 2
      omega
    simp only [List.map_singleton, hlast, hfront]
    rw [bytesToNat_append_singleton, ih (v >>> 8)]
    rw [Nat.shiftRight_eq_div_pow, show (2 : Nat) ^ 8 = 256 by norm_num]
    have hpow : 2 ^ (8 * (m + 1)) = 256 * 2 ^ (8 * m) := by
      rw [show 8 * (m + 1) = 8 + 8 * m by ring, pow_add]
      norm_num
    rw [hpow, Nat.mod_mul]
    ring

/-- The fixed-width big-endian encoding of a 256-bit value round-trips. -/
theorem bytesToNat_natToBytesBE32 (v : Nat) (hv : v < 2 ^ 256) :
    bytesToNat (natToBytesBE32 v) = v := by
  have h := bytesToNat_rangeBE 32 v
  have hcong : ((List.range 32).map fun i => v >>> (8 * (32 - 1 - i)) % 256)
      = natToBytesBE32 v := by
    unfold natToBytesBE32
    apply List.map_congr_left
    intro i hi
    congr 2
  rw [hcong] at h
  rw [h, show 8 * 32 = 256 by norm_num, Nat.mod_eq_of_lt hv]

/-- Fixed-width big-endian bytes are genuine bytes. -/
theorem natToBytesBE32_lt_256 (v : Nat) : ∀ b ∈ natToBytesBE32 v, b < 256 := by
  intro b hb
  unfold natToBytesBE32 at hb
  obtain ⟨i, _, rfl⟩ := List.mem_map.mp hb
  exact Nat.mod_lt _ (by omega)

/-- With non-astronomical content, a byte-string RLP item adds at most nine
bytes of header. -/
theorem rlpEncode_bytes_length_le (bs : List Nat) (h : bs.length < 2 ^ 64) :
    (rlpEncode (.bytes bs)).length ≤ bs.length + 9 := by
  rw [rlpEncode_bytes_cases]
  split_ifs with h1 h2
  · omega
  · simp only [List.length_cons]
    omega
  · have hpos : 0 < bs.length := by omega
    rw [encodeLength_eq_intToBuffer _ hpos]
    have h8 : (intToBuffer bs.length).length ≤ 8 := by
      refine intToBuffer_length_le 8 _ ?_ (by omega)
      calc bs.length < 2 ^ 64 := h
        _ = 16 ^ (2 * 8) := by norm_num
    simp only [List.length_cons, List.length_append]
    omega

/-! ## C1: end-to-end signature recovery -/

/-- Modelled from the spec: the address derivation the repository relies
on (viem's `privateKeyToAccount` behind `Wallet.create`, and the final
lines of the recovery test): keccak-256 of the 64-byte uncompressed
public key without its `0x04` prefix, last 20 bytes, as a
`"0x"`-prefixed lowercase hex string. -/
def deriveAddress (P : ECPoint) : String :=
  match P with
  | none => ""
  | some (x, y) =>
    "0x" ++ bytesToHex (List.drop 12 (keccak256 (natToBytesBE32 x ++ natToBytesBE32 y)))

/-- The recovery pipeline of `src/tests/signature_recovery_test.ts` (lines
34–95): hex-decode the signed transaction, RLP-decode it into nine byte
strings, read `v`, `r`, `s` off the last three, compute
`recid = v - (chainId·2 + 35)`, rebuild the preimage hash from the
transaction fields exactly as the test does (the same expression as
`signMsgHash`), recover the public key and derive its address. -/
def recoverSignedTxAddress (tx : Tx) (signedTx : String) : Option String :=
  match rlpDecodeList (hexToBuffer signedTx) with
  | none => none
  | some decoded =>
    if decoded.length = 9 then
      match ecRecover (bytesToNat (signMsgHash tx)) (bytesToNat (decoded.getD 7 []))
          (bytesToNat (decoded.getD 8 []))
          (bytesToNat (decoded.getD 6 []) - (tx.chainId * 2 + 35)) with
      | none => none
      | some (x, y) =>
        some ("0x" ++ bytesToHex (List.drop 12
          (keccak256 (natToBytesBE32 x ++ natToBytesBE32 y))))
    else none

/-- C1: end-to-end signature recovery: for every valid secp256k1 private
key `d`, every nonce `k` that yields a signature, and every transaction of
non-astronomical field sizes, the recovery test's pipeline — RLP-decode
the signed transaction, take `v`, `r`, `s` from its last three fields,
compute `recid = v - (chainId·2 + 35)` and recover the public key from
`(preimageHash, r, s, recid)` — returns exactly the Ethereum address
derived from the signer's own public key `d·G`. -/
theorem sign_recovery_roundtrip (d k : Nat) (tx : Tx) (signedTx : String)
    (hd0 : 0 < d) (hdn : d < secpN) (hk0 : 0 < k) (hkn : k < secpN)
    (hsig : sign d tx k = some signedTx)
    (hnonce : tx.nonce < 2 ^ 256) (hgasPrice : tx.gasPrice < 2 ^ 256)
    (hgasLimit : tx.gasLimit < 2 ^ 256) (hvalue : tx.value < 2 ^ 256)
    (hchain : tx.chainId < 2 ^ 240)
    (hto : (hexToBuffer tx.«to»).length < 2 ^ 30)
    (hdata : (hexToBuffer tx.data).length < 2 ^ 30) :
    recoverSignedTxAddress tx signedTx = some (deriveAddress (psmul d pG)) := by
  rcases hES : ecSign (bytesToNat (signMsgHash tx)) d k with _ | ⟨r, s, recid⟩
  · simp only [sign, hES] at hsig
    exact Option.noConfusion hsig
  · simp only [sign, hES] at hsig
    obtain ⟨xR, yR, hR, hr, hr0, hs₀ne, hcase⟩ := ecSign_elim hES
    have hrecid : recid ≤ 3 := by
      have hb2 : (if secpN ≤ xR then 2 else 0) = 2 * (if secpN ≤ xR then 1 else 0) := by
        split_ifs <;> rfl
      have hb1 : (if secpN ≤ xR then 1 else 0) ≤ 1 := by split_ifs <;> omega
      have hy2 : yR % 2 ≤ 1 := by omega
      rcases hcase with ⟨_, _, hrec⟩ | ⟨_, _, hrec⟩
      · rw [hrec, hb2]; omega
      · have hxor := recid_xor_one (if secpN ≤ xR then 1 else 0) (yR % 2) hb1 hy2
        rw [hrec, hb2]
        omega
    have hrn : r < secpN := by rw [hr]; exact Nat.mod_lt _ (by decide)
    have hsn : s < secpN := by
      have hs₀lt : invMod k secpN
          * ((bytesToNat (signMsgHash tx) % secpN + r * d) % secpN) % secpN < secpN :=
        Nat.mod_lt _ (by decide)
      rcases hcase with ⟨_, hs, _⟩ | ⟨_, hs, _⟩ <;> omega
    have hveq : bytesToNat (intToBuffer (eip155V tx.chainId recid))
        - (tx.chainId * 2 + 35) = recid := by
      rw [bytesToNat_intToBuffer]
      simp only [eip155V]
      omega
    have h1664 : (16 : Nat) ^ (2 * 32) = 2 ^ 256 := by norm_num
    have hlnonce : (intToBuffer tx.nonce).length ≤ 32 :=
      intToBuffer_length_le 32 _ (by rw [h1664]; exact hnonce) (by omega)
    have hlgasPrice : (intToBuffer tx.gasPrice).length ≤ 32 :=
      intToBuffer_length_le 32 _ (by rw [h1664]; exact hgasPrice) (by omega)
    have hlgasLimit : (intToBuffer tx.gasLimit).length ≤ 32 :=
      intToBuffer_length_le 32 _ (by rw [h1664]; exact hgasLimit) (by omega)
    have hlvalue : (intToBuffer tx.value).length ≤ 32 :=
      intToBuffer_length_le 32 _ (by rw [h1664]; exact hvalue) (by omega)
    have hvbound : eip155V tx.chainId recid < 2 ^ 256 := by
      simp only [eip155V]
      omega
    have hlv : (intToBuffer (eip155V tx.chainId recid)).length ≤ 32 :=
      intToBuffer_length_le 32 _ (by rw [h1664]; exact hvbound) (by omega)
    have hb : ∀ item ∈ signedItems tx (eip155V tx.chainId recid) r s,
        ∀ b ∈ item, b < 256 := by
      intro item hitem
      simp only [signedItems, List.mem_cons, List.not_mem_nil, or_false] at hitem
      rcases hitem with rfl | rfl | rfl | rfl | rfl | rfl | rfl | rfl | rfl
      · exact intToBuffer_lt_256 _
      · exact intToBuffer_lt_256 _
      · exact intToBuffer_lt_256 _
      · split_ifs
        · exact hexToBuffer_lt_256 _
        · intro b hbb
          exact absurd hbb (List.not_mem_nil b)
      · exact intToBuffer_lt_256 _
      · split_ifs
        · exact hexToBuffer_lt_256 _
        · intro b hbb
          exact absurd hbb (List.not_mem_nil b)
      · exact intToBuffer_lt_256 _
      · exact natToBytesBE32_lt_256 _
      · exact natToBytesBE32_lt_256 _
    have hlen64 : ∀ item ∈ signedItems tx (eip155V tx.chainId recid) r s,
        item.length < 2 ^ 64 := by
      intro item hitem
      simp only [signedItems, List.mem_cons, List.not_mem_nil, or_false] at hitem
      rcases hitem with rfl | rfl | rfl | rfl | rfl | rfl | rfl | rfl | rfl
      · omega
      · omega
      · omega
      · split_ifs
        · omega
        · simp
      · omega
      · split_ifs
        · omega
        · simp
      · omega
      · rw [natToBytesBE32_length]; omega
      · rw [natToBytesBE32_length]; omega
    have hpay : (rlpEncodeList ((signedItems tx (eip155V tx.chainId recid) r s).map
        RlpInput.bytes)).length < 2 ^ 32 := by
      have e1 := rlpEncode_bytes_length_le (intToBuffer tx.nonce) (by omega)
      have e2 := rlpEncode_bytes_length_le (intToBuffer tx.gasPrice) (by omega)
      have e3 := rlpEncode_bytes_length_le (intToBuffer tx.gasLimit) (by omega)
      have e4 := rlpEncode_bytes_length_le
        (if jsTruthy tx.«to» then hexToBuffer tx.«to» else []) (by split_ifs <;> simp <;> omega)
      have e5 := rlpEncode_bytes_length_le (intToBuffer tx.value) (by omega)
      have e6 := rlpEncode_bytes_length_le
        (if jsTruthy tx.data then hexToBuffer tx.data else []) (by split_ifs <;> simp <;> omega)
      have e7 := rlpEncode_bytes_length_le (intToBuffer (eip155V tx.chainId recid)) (by omega)
      have e8 := rlpEncode_bytes_length_le (natToBytesBE32 r)
        (by rw [natToBytesBE32_length]; omega)
      have e9 := rlpEncode_bytes_length_le (natToBytesBE32 s)
        (by rw [natToBytesBE32_length]; omega)
      have h4 : (if jsTruthy tx.«to» then hexToBuffer tx.«to» else []).length < 2 ^ 30 := by
        split_ifs
        · exact hto
        · simp
      have h6 : (if jsTruthy tx.data then hexToBuffer tx.data else []).length < 2 ^ 30 := by
        split_ifs
        · exact hdata
        · simp
      have h8 := natToBytesBE32_length r
      have h9 := natToBytesBE32_length s
      simp only [signedItems, List.map_cons, List.map_nil, rlpEncodeList,
        List.length_append, List.length_nil]
      omega
    have hdec : rlpDecodeList (hexToBuffer
        (ethersEncodeRlp (signedItems tx (eip155V tx.chainId recid) r s)))
        = some (signedItems tx (eip155V tx.chainId recid) r s) := by
      have hhex : hexToBuffer (ethersEncodeRlp (signedItems tx (eip155V tx.chainId recid) r s))
          = rlpEncode (.list ((signedItems tx (eip155V tx.chainId recid) r s).map .bytes)) := by
        simp only [ethersEncodeRlp]
        exact hexToBuffer_bytesToHex _ (rlpEncode_bytesList_lt_256 _ hb hpay)
      rw [hhex]
      exact rlpDecodeList_encode _ hb hlen64 (by omega)
    have hst : signedTx = ethersEncodeRlp (signedItems tx (eip155V tx.chainId recid) r s) :=
      (Option.some.inj hsig).symm
    subst hst
    simp only [recoverSignedTxAddress, hdec]
    rw [if_pos (show (signedItems tx (eip155V tx.chainId recid) r s).length = 9 from rfl)]
    have hg6 : (signedItems tx (eip155V tx.chainId recid) r s).getD 6 []
        = intToBuffer (eip155V tx.chainId recid) := rfl
    have hg7 : (signedItems tx (eip155V tx.chainId recid) r s).getD 7 []
        = natToBytesBE32 r := rfl
    have hg8 : (signedItems tx (eip155V tx.chainId recid) r s).getD 8 []
        = natToBytesBE32 s := rfl
    have hN256 : secpN < 2 ^ 256 := by decide
    rw [hg6, hg7, hg8, hveq, bytesToNat_natToBytesBE32 r (by omega),
      bytesToNat_natToBytesBE32 s (by omega)]
    rw [ecRecover_ecSign _ d k r s recid hd0 hdn hk0 hkn hES]
    have hdpt := psmul_represents d represents_pG
    rcases hQ : psmul d pG with _ | ⟨Qx, Qy⟩
    · rw [hQ] at hdpt
      have hdvd : secpN ∣ d := (nsmul_Gpt_eq_zero_iff d).mp hdpt
      exact absurd (Nat.le_of_dvd hd0 hdvd) (by omega)
    · simp only [hQ, deriveAddress]

/-- Closed-form check of `sign_recovery_roundtrip`: the sample transaction
signed with private key `1` and nonce `1`, pinning the concrete signed
bytes and the well-known address of private key `1`. -/
theorem sign_recovery_roundtrip_witness :
    sign 1 txExample 1 = some "0xf86380843b9aca008252089470997970c51812dc3a010c7d01b50e0d17dc79c8018026a079be667ef9dcbbac55a06295ce870b07029bfcdb2dce28d959f2815b16f81798a06a4ea16a4eb237eda830564d4462e3daec97611aa2b7933ce52677c716f028ec"
    ∧ deriveAddress (psmul 1 pG) = "0x7e5f4552091a69125d5dfcb7b8c2659029395bdf"
    ∧ recoverSignedTxAddress txExample
        "0xf86380843b9aca008252089470997970c51812dc3a010c7d01b50e0d17dc79c8018026a079be667ef9dcbbac55a06295ce870b07029bfcdb2dce28d959f2815b16f81798a06a4ea16a4eb237eda830564d4462e3daec97611aa2b7933ce52677c716f028ec"
      = some (deriveAddress (psmul 1 pG)) :=
  ⟨by decide, by decide,
    sign_recovery_roundtrip 1 1 txExample _ (by decide) (by decide) (by decide)
      (by decide) (by decide) (by decide) (by decide) (by decide) (by decide) (by decide)
      (by decide) (by decide)⟩
